import Mathlib



/-!
# Verification of the MCP agent (server manager + stream client)

A shallow embedding of `mcp_server_manager.py` and `mcp_true_stream_client.py`.

Strings are modelled as `List Char` (the `data` of a Lean `String`), Python
dicts as insertion-ordered association lists with the exact assignment
semantics of CPython dicts (assignment to a present key replaces the value in
place, otherwise the pair is appended).  Network and process effects
(`requests.head` probes, `subprocess.Popen`, `psutil` terminations) are
modelled as queues of externally determined outcomes inside a `World` record
that every effectful operation threads through.
-/

/-- Character lists play the role of Python strings. -/
abbrev LC := List Char

/-! ## Python dict model -/

/-- `d[k]` lookup (keys are unique in a dict, so first match suffices). -/
def dictLookup {α : Type} (d : List (LC × α)) (k : LC) : Option α :=
  match d with
  | [] => none
  | (k', v) :: rest => if k' = k then some v else dictLookup rest k

/-- `k in d`. -/
def dictMem {α : Type} (d : List (LC × α)) (k : LC) : Bool :=
  match d with
  | [] => false
  | (k', _) :: rest => k' = k || dictMem rest k

/-- `d[k] = v`: CPython dict assignment — replace in place if the key is
present, otherwise append at the end. -/
def dictSet {α : Type} (d : List (LC × α)) (k : LC) (v : α) : List (LC × α) :=
  match d with
  | [] => [(k, v)]
  | (k', v') :: rest => if k' = k then (k', v) :: rest else (k', v') :: dictSet rest k v

/-- `del d[k]`. -/
def dictRemove {α : Type} (d : List (LC × α)) (k : LC) : List (LC × α) :=
  match d with
  | [] => []
  | (k', v') :: rest => if k' = k then rest else (k', v') :: dictRemove rest k

/-! ## `mcp_server_manager.py` — data model -/

/-- `MCPTransportType` enum. -/
inductive MCPTransportType where
  | sse
  | stdio
deriving DecidableEq, Repr

/-- The `.value` of the enum member. -/
def transportValue : MCPTransportType → LC
  | .sse => "sse".data
  | .stdio => "stdio".data

/-- `MCPTransportType(s)` — raises `ValueError` (modelled as `none`) unless
`s` is one of the two member values. -/
def parseTransport (s : LC) : Option MCPTransportType :=
  if s = "sse".data then some .sse
  else if s = "stdio".data then some .stdio
  else none

/-- The `MCPServerConfig` dataclass. -/
structure MCPServerConfig where
  name : LC
  description : LC
  transport_type : MCPTransportType
  command : Option LC := none
  url : Option LC := none
  port : Option Nat := none
  working_directory : Option LC := none
  env_vars : List (LC × LC) := []
  auto_start : Bool := true
  health_check_endpoint : Option LC := none
  pid : Option Nat := none
  status : LC := "stopped".data
deriving DecidableEq, Repr

/-- One record of the persisted JSON document, as written by `save_config`
(which always writes every key, so every field is present). -/
structure SavedRec where
  description : LC
  transport_type : LC
  command : Option LC
  url : Option LC
  port : Option Nat
  working_directory : Option LC
  env_vars : List (LC × LC)
  auto_start : Bool
  health_check_endpoint : Option LC
  pid : Option Nat
  status : LC
deriving DecidableEq, Repr

/-- The persisted configuration document as `load_config` finds it:
absent, present but not JSON-parseable, or parsed into records. -/
inductive ConfigDoc where
  | missing
  | unparseable
  | parsed (entries : List (LC × SavedRec))

/-- In-memory state of `MCPServerManager`: the `servers` dict and the
`processes` dict (a tracked process handle is represented by its pid). -/
structure ManagerState where
  servers : List (LC × MCPServerConfig)
  processes : List (LC × Nat)
deriving DecidableEq, Repr

/-- Outcome of `process.terminate(); process.wait(timeout=5)` on a tracked
handle in `stop_server`: clean exit, timeout followed by `kill`, or some
other exception. -/
inductive HandleStopOutcome where
  | ok
  | timeoutKilled
  | exc
deriving DecidableEq, Repr

/-- Outcome of the psutil terminate-by-pid path in `stop_server`. -/
inductive PidStopOutcome where
  | ok
  | gone
  | timeoutKilled
  | timeoutKillFailed
  | exc
deriving DecidableEq, Repr

/-- External effects, as queues of outcomes consumed in program order:
liveness-probe answers (`requests.head` on the config url), spawn results
(`subprocess.Popen` — `none` means the spawn raised), handle terminations,
`_is_process_running` answers, and pid terminations. -/
structure World where
  probes : List Bool := []
  spawns : List (Option Nat) := []
  handleStops : List HandleStopOutcome := []
  pidAlive : List Bool := []
  pidStops : List PidStopOutcome := []
deriving DecidableEq, Repr

def takeProbe (w : World) : Bool × World :=
  match w.probes with
  | [] => (false, w)
  | b :: rest => (b, { w with probes := rest })

def takeSpawn (w : World) : Option Nat × World :=
  match w.spawns with
  | [] => (none, w)
  | s :: rest => (s, { w with spawns := rest })

def takeHandleStop (w : World) : HandleStopOutcome × World :=
  match w.handleStops with
  | [] => (.exc, w)
  | s :: rest => (s, { w with handleStops := rest })

def takePidAlive (w : World) : Bool × World :=
  match w.pidAlive with
  | [] => (false, w)
  | b :: rest => (b, { w with pidAlive := rest })

def takePidStop (w : World) : PidStopOutcome × World :=
  match w.pidStops with
  | [] => (.exc, w)
  | s :: rest => (s, { w with pidStops := rest })

/-! ## `mcp_server_manager.py` — operations -/

def statusRunning : LC := "running".data

def statusStopped : LC := "stopped".data

def statusUnknown : LC := "unknown".data

def statusError : LC := "error".data

/-- Prefix marking auto-discovered providers (`name.startswith("discovered_server_")`). -/
def discoveredPfx : LC := "discovered_server_".data

/-- `_check_server_health`: a HEAD probe is issued only for an SSE transport
with a url; every other case (and a raising request) is `False`. -/
def check_server_health (w : World) (config : MCPServerConfig) : Bool × World :=
  match config.transport_type, config.url with
  | .sse, some _ => takeProbe w
  | _, _ => (false, w)

/-- `_find_server_by_port`: first server whose configured port equals `port`
and whose name is not an auto-discovery name. -/
def find_server_by_port (d : List (LC × MCPServerConfig)) (port : Option Nat) : Option LC :=
  match d with
  | [] => none
  | (n, c) :: rest =>
    if c.port = port ∧ ¬ (discoveredPfx.isPrefixOf n = true) then some n
    else find_server_by_port rest port

/-- Replace `servers[name].status` in place (Python mutates the config
object held in the dict). -/
def dictSetStatus (d : List (LC × MCPServerConfig)) (k : LC) (s : LC) :
    List (LC × MCPServerConfig) :=
  match d with
  | [] => []
  | (k', c) :: rest =>
    if k' = k then (k', { c with status := s }) :: rest
    else (k', c) :: dictSetStatus rest k s

/-- `save_config`: project each config onto the persisted record (every key
written, including `pid` and `status`). -/
def saveRec (c : MCPServerConfig) : SavedRec :=
  { description := c.description
    transport_type := transportValue c.transport_type
    command := c.command
    url := c.url
    port := c.port
    working_directory := c.working_directory
    env_vars := c.env_vars
    auto_start := c.auto_start
    health_check_endpoint := c.health_check_endpoint
    pid := c.pid
    status := c.status }

def save_config (servers : List (LC × MCPServerConfig)) : List (LC × SavedRec) :=
  servers.map (fun e => (e.1, saveRec e.2))

/-- The config built by `load_config` for one parsed record: every field is
taken from the document except `status`, which is always `"unknown"`. -/
def loadedConfig (name : LC) (r : SavedRec) (t : MCPTransportType) : MCPServerConfig :=
  { name := name
    description := r.description
    transport_type := t
    command := r.command
    url := r.url
    port := r.port
    working_directory := r.working_directory
    env_vars := r.env_vars
    auto_start := r.auto_start
    health_check_endpoint := r.health_check_endpoint
    pid := r.pid
    status := statusUnknown }

/-- Python truthiness of an `Optional[str]`: a found name counts only if it
is non-empty. -/
def truthyName (o : Option LC) : Bool :=
  match o with
  | some (_ :: _) => true
  | _ => false

/-- The entry loop of `load_config`.  A `discovered_server_*` entry whose
port is already claimed by a previously loaded, truthy-named, manually
configured server is skipped.  `MCPTransportType(...)` raising on an entry
aborts the whole loop (the `except` is outside the `for`): the `Bool`
result records whether the loop aborted, and the dict holds whatever was
loaded before the abort. -/
def loadEntries : List (LC × SavedRec) → List (LC × MCPServerConfig) →
    List (LC × MCPServerConfig) × Bool
  | [], acc => (acc, false)
  | (name, r) :: rest, acc =>
    if discoveredPfx.isPrefixOf name && truthyName (find_server_by_port acc r.port) then
      loadEntries rest acc
    else
      match parseTransport r.transport_type with
      | none => (acc, true)
      | some t => loadEntries rest (dictSet acc name (loadedConfig name r t))

/-- `_create_default_config`: register the built-in weather provider.
`working_directory` is `os.getcwd()`, passed in as `cwd`. -/
def defaultWeatherServer (cwd : LC) : MCPServerConfig :=
  { name := "weather_server".data
    description := "天气查询 MCP 服务器".data
    transport_type := .sse
    command := some "python weather_server.py".data
    port := some 8000
    url := some "http://127.0.0.1:8000/sse".data
    working_directory := some cwd
    auto_start := true
    health_check_endpoint := some "/sse".data }

def create_default_config (cwd : LC) (servers : List (LC × MCPServerConfig)) :
    List (LC × MCPServerConfig) :=
  dictSet servers "weather_server".data (defaultWeatherServer cwd)

/-- `load_config` on a fresh manager (`self.servers` starts empty): a missing
document and an unparseable document both build the default configuration;
a parsed document is folded entry by entry, and an entry whose transport
value raises makes the `except` branch add the default configuration on top
of the entries loaded so far. -/
def load_config (cwd : LC) (doc : ConfigDoc) : List (LC × MCPServerConfig) :=
  match doc with
  | .missing => create_default_config cwd []
  | .unparseable => create_default_config cwd []
  | .parsed entries =>
    match loadEntries entries [] with
    | (acc, false) => acc
    | (acc, true) => create_default_config cwd acc

/-- Shorthand: rewrite one server's config in the manager state. -/
def putConfig (st : ManagerState) (name : LC) (c : MCPServerConfig) : ManagerState :=
  { st with servers := dictSet st.servers name c }

/-- `start_server`.  Returns the Python return value together with the new
state and world.  The `except` branch of the source (any exception during a
spawn, e.g. `config.command.split()` on `None` or `Popen` raising) sets
`status = "error"` and returns `False`.  In the SSE branch `status` is set
to `"running"` at spawn time, before the settle sleep and the second probe;
a failed second probe only returns `False`. -/
def start_server (st : ManagerState) (w : World) (name : LC) :
    Bool × ManagerState × World :=
  match dictLookup st.servers name with
  | none => (false, st, w)
  | some config =>
    match config.transport_type with
    | .stdio =>
      match config.command with
      | none => (false, putConfig st name { config with status := statusError }, w)
      | some _ =>
        match takeSpawn w with
        | (none, w1) => (false, putConfig st name { config with status := statusError }, w1)
        | (some pid, w1) =>
          (true,
            { servers := dictSet st.servers name
                { config with pid := some pid, status := statusRunning }
              processes := dictSet st.processes name pid },
            w1)
    | .sse =>
      match check_server_health w config with
      | (true, w1) => (true, putConfig st name { config with status := statusRunning }, w1)
      | (false, w1) =>
        match config.command with
        | none => (false, putConfig st name { config with status := statusError }, w1)
        | some _ =>
          match takeSpawn w1 with
          | (none, w2) => (false, putConfig st name { config with status := statusError }, w2)
          | (some pid, w2) =>
            let config2 := { config with pid := some pid, status := statusRunning }
            let st2 : ManagerState :=
              { servers := dictSet st.servers name config2
                processes := dictSet st.processes name pid }
            match check_server_health w2 config2 with
            | (ok2, w3) => (ok2, st2, w3)

/-- `stop_server`.  Three methods tried in order — tracked handle, recorded
pid, SSE liveness probe — followed by the final status update: `"stopped"`
(and `pid = None`) when one of them succeeded, `"unknown"` otherwise. -/
def stop_server (st : ManagerState) (w : World) (name : LC) : ManagerState × World :=
  -- method 1: tracked process handle
  let m1 : Bool × List (LC × Nat) × World :=
    match dictLookup st.processes name with
    | some _ =>
      match takeHandleStop w with
      | (o, w') => (o ≠ HandleStopOutcome.exc, dictRemove st.processes name, w')
    | none => (false, st.processes, w)
  match m1 with
  | (stopped1, processes1, w1) =>
    -- method 2: recorded pid (only when method 1 did not stop it)
    let m2 : Bool × World :=
      match dictLookup st.servers name, stopped1 with
      | some config, false =>
        match config.pid with
        | some pid =>
          if pid = 0 then (false, w1)  -- Python: `if config.pid` is falsy for 0
          else
            match takePidAlive w1 with
            | (true, w') =>
              match takePidStop w' with
              | (o, w'') =>
                (o = PidStopOutcome.ok ∨ o = PidStopOutcome.gone ∨
                  o = PidStopOutcome.timeoutKilled, w'')
            | (false, w') => (false, w')
        | none => (false, w1)
      | _, _ => (false, w1)
    match m2 with
    | (stopped2, w2) =>
      -- method 3: SSE health probe (only when still not stopped)
      let m3 : Bool × World :=
        match dictLookup st.servers name, stopped1 || stopped2 with
        | some config, false =>
          match config.transport_type with
          | .sse =>
            match check_server_health w2 config with
            | (healthy, w') => (!healthy, w')
          | .stdio => (false, w2)
        | _, _ => (false, w2)
      match m3 with
      | (stopped3, w3) =>
        let stopped := stopped1 || stopped2 || stopped3
        let servers' :=
          match dictLookup st.servers name with
          | some config =>
            if stopped then
              dictSet st.servers name { config with status := statusStopped, pid := none }
            else
              dictSet st.servers name { config with status := statusUnknown }
          | none => st.servers
        ({ servers := servers', processes := processes1 }, w3)

/-- `discover_running_servers` scans this port range. -/
def portRange : List Nat := List.range' 8000 100

def discoveredName (p : Nat) : LC := discoveredPfx ++ (Nat.repr p).data

def portUrl (p : Nat) : LC :=
  "http://127.0.0.1:".data ++ (Nat.repr p).data ++ "/sse".data

/-- The synthesized config for an auto-discovered responder. -/
def discoveredConfig (p : Nat) : MCPServerConfig :=
  { name := discoveredName p
    description := "自动发现的 MCP 服务器 (端口 ".data ++ (Nat.repr p).data ++ ")".data
    transport_type := .sse
    port := some p
    url := some (portUrl p)
    auto_start := false
    status := statusRunning }

/-- One loop iteration of `discover_running_servers` for a given port.
`scanOk p` is the outcome of the HEAD probe on `http://127.0.0.1:p/sse`
(`false` also covers a raising request, which the source swallows).  The
source guards the update branch with `if existing_server:` — Python
truthiness, which is false both for `None` and for the empty-string name,
so only a non-empty found name takes the update branch; otherwise a
`discovered_server_<port>` record is created. -/
def discover_step (scanOk : Nat → Bool) (st : ManagerState) (p : Nat) : ManagerState :=
  if scanOk p then
    match find_server_by_port st.servers (some p) with
    | some (c :: rest) =>
      { st with servers := dictSetStatus st.servers (c :: rest) statusRunning }
    | _ =>
      { st with servers := dictSet st.servers (discoveredName p) (discoveredConfig p) }
  else st

def discover_running_servers (st : ManagerState) (scanOk : Nat → Bool) : ManagerState :=
  portRange.foldl (discover_step scanOk) st

/-! ## `mcp_true_stream_client.py` — directive extraction

`_extract_tool_calls` uses three regexes.  Their exact matching semantics
are implemented as scanners over char lists:

* `re.findall(r'<function_calls>(.*?)</function_calls>', s, re.DOTALL)`:
  repeatedly take the leftmost `<function_calls>`, then the nearest
  following `</function_calls>`, capture what is between, continue behind
  the match;
* `re.search(r'<invoke name="([^"]+)">', block)`: leftmost occurrence of
  the literal prefix followed by a non-empty run of non-quote characters,
  a quote and a `>` (backtracking inside `[^"]+` can never rescue a failed
  candidate, so a failed candidate means moving one character right);
* `re.findall(r'<parameter name="([^"]+)">([^<]+)</parameter>', block)`:
  the same discipline for the name, then a non-empty run of non-`<`
  characters that must be followed directly by `</parameter>`.
-/

/-- Split `s` at the leftmost occurrence of `pat`: what is before it and
what is after it, or `none` when `pat` does not occur. -/
def splitFirst (pat : LC) : LC → Option (LC × LC)
  | [] => none
  | c :: rest =>
    if pat.isPrefixOf (c :: rest) then some ([], (c :: rest).drop pat.length)
    else
      match splitFirst pat rest with
      | some (pre, post) => some (c :: pre, post)
      | none => none

def fcOpen : LC := "<function_calls>".data

def fcClose : LC := "</function_calls>".data

def invokePfx : LC := "<invoke name=\x22".data

def paramPfx : LC := "<parameter name=\x22".data

def paramClose : LC := "</parameter>".data

/-- Python `in` on strings. -/
def containsSub (pat s : LC) : Bool := (splitFirst pat s).isSome

/-- `re.findall` of the block regex, fuel-indexed (each found block consumes
at least the two markers, so `s.length + 1` fuel always suffices). -/
def extractBlocksGo : Nat → LC → List LC
  | 0, _ => []
  | fuel + 1, s =>
    match splitFirst fcOpen s with
    | none => []
    | some (_, afterOpen) =>
      match splitFirst fcClose afterOpen with
      | none => []
      | some (block, rest) => block :: extractBlocksGo fuel rest

def extractBlocks (s : LC) : List LC := extractBlocksGo (s.length + 1) s

/-- `re.search(r'<invoke name="([^"]+)">', s)`, returning the captured name.
The run `[^"]+` is maximal up to the next quote, so the candidate succeeds
exactly when the run is non-empty and followed by `">`. -/
def findInvokeName : LC → Option LC
  | [] => none
  | c :: rest =>
    if invokePfx.isPrefixOf (c :: rest) then
      let after := (c :: rest).drop invokePfx.length
      let nm := after.takeWhile (fun ch => ch ≠ '\x22')
      if nm ≠ [] ∧ (after.dropWhile (fun ch => ch ≠ '\x22')).take 2 = ['\x22', '>'] then
        some nm
      else findInvokeName rest
    else findInvokeName rest

/-- `re.findall` of the parameter regex: list of (name, value) captures in
match order; scanning resumes behind a successful match and one character
to the right of a failed candidate. -/
def findParamsGo : Nat → LC → List (LC × LC)
  | 0, _ => []
  | _ + 1, [] => []
  | fuel + 1, c :: rest =>
    if paramPfx.isPrefixOf (c :: rest) then
      let after := (c :: rest).drop paramPfx.length
      let nm := after.takeWhile (fun ch => ch ≠ '\x22')
      let r1 := after.dropWhile (fun ch => ch ≠ '\x22')
      if nm ≠ [] ∧ r1.take 2 = ['\x22', '>'] then
        let rest2 := r1.drop 2
        let v := rest2.takeWhile (fun ch => ch ≠ '<')
        let rest3 := rest2.dropWhile (fun ch => ch ≠ '<')
        if v ≠ [] ∧ paramClose.isPrefixOf rest3 then
          (nm, v) :: findParamsGo fuel (rest3.drop paramClose.length)
        else findParamsGo fuel rest
      else findParamsGo fuel rest
    else findParamsGo fuel rest

def findParams (s : LC) : List (LC × LC) := findParamsGo (s.length + 1) s

/-- One extracted directive: the `{"name": ..., "arguments": ...}` dict of
the source, with `arguments` a dict built by repeated assignment. -/
structure ToolCall where
  name : LC
  arguments : List (LC × LC)
deriving DecidableEq, Repr

def buildArgs (ps : List (LC × LC)) : List (LC × LC) :=
  ps.foldl (fun m q => dictSet m q.1 q.2) []

/-- `_extract_tool_calls`: per block, the first invoke name (blocks without
one are dropped) together with all parameter captures of the whole block. -/
def extract_tool_calls (s : LC) : List ToolCall :=
  (extractBlocks s).filterMap (fun b =>
    match findInvokeName b with
    | none => none
    | some nm => some { name := nm, arguments := buildArgs (findParams b) })

/-! ## `mcp_true_stream_client.py` — tool directory and router -/

/-- `MCPToolInfo`. -/
structure MCPToolInfo where
  name : LC
  description : LC
  parameters : List (LC × LC)
  server_name : LC
deriving DecidableEq, Repr

/-- `MCPServerInfo` (the `tools` list is irrelevant to routing). -/
structure MCPServerInfo where
  name : LC
  description : LC
  transport_type : MCPTransportType
  url_or_command : LC
deriving DecidableEq, Repr

/-- One procedure as advertised by a provider's `list_tools` response. -/
structure AdvertisedTool where
  name : LC
  description : LC
  parameters : List (LC × LC)
deriving DecidableEq, Repr

def toToolInfo (server : LC) (t : AdvertisedTool) : MCPToolInfo :=
  { name := t.name
    description := t.description
    parameters := t.parameters
    server_name := server }

/-- The `for tool in tools_response.tools: self.all_tools[tool.name] = ...`
loop of `_connect_sse` / `_connect_stdio`. -/
def addProviderTools (d : List (LC × MCPToolInfo)) (server : LC)
    (ts : List AdvertisedTool) : List (LC × MCPToolInfo) :=
  ts.foldl (fun d t => dictSet d t.name (toToolInfo server t)) d

/-- `all_tools` after `load_servers_from_config` has connected the given
providers in order. -/
def buildAllTools (providers : List (LC × List AdvertisedTool)) :
    List (LC × MCPToolInfo) :=
  providers.foldl (fun d p => addProviderTools d p.1 p.2) []

def errUnknownTool (tool : LC) : LC :=
  "错误：工具 ".data ++ tool ++ " 不存在".data

def errServerNotConnected (server : LC) : LC :=
  "错误：服务器 ".data ++ server ++ " 未连接".data

def errCallFailed (e : LC) : LC := "调用工具失败: ".data ++ e

/-- `call_tool`: name lookup, owning-server lookup, then the transport
dispatch guarded by `try/except`.  The transport call is an external
collaborator: `Except.error e` models it raising `e`, which the source
converts to the `"调用工具失败: ..."` text. -/
def call_tool (all_tools : List (LC × MCPToolInfo))
    (servers : List (LC × MCPServerInfo))
    (transportCall : MCPServerInfo → LC → List (LC × LC) → Except LC LC)
    (tool_name : LC) (arguments : List (LC × LC)) : LC :=
  match dictLookup all_tools tool_name with
  | none => errUnknownTool tool_name
  | some info =>
    match dictLookup servers info.server_name with
    | none => errServerNotConnected info.server_name
    | some srv =>
      match transportCall srv tool_name arguments with
      | .ok r => r
      | .error e => errCallFailed e

/-! ## `mcp_true_stream_client.py` — orchestrator -/

/-- The observable outcome of one `process_query_true_stream` turn after the
first streamed response has been buffered: the returned string, the
directives dispatched through `call_tool`, and whether the second
completion-engine call (`_process_tool_results_with_true_stream`) was
issued.  `runTool` abstracts `call_tool`, `synth` abstracts the second
completion-engine call. -/
def process_query (resp : LC)
    (runTool : LC → List (LC × LC) → LC)
    (synth : LC → List (ToolCall × LC) → LC) :
    LC × List ToolCall × Bool :=
  if containsSub fcOpen resp && containsSub fcClose resp then
    match extract_tool_calls resp with
    | [] => (resp, [], false)
    | tc :: tcs =>
      let calls := tc :: tcs
      let results := calls.map (fun c => (c, runTool c.name c.arguments))
      (synth resp results, calls, true)
  else (resp, [], false)

/-- No occurrence of `pat` starts strictly inside `a`, whatever follows `a`. -/
def NoStraddleOcc (pat a : LC) : Prop :=
  ∀ (b : LC) (i : Nat), i < a.length → ¬ pat <+: (a ++ b).drop i

/-- Decidable check that no suffix of the literal `lit` is prefix-compatible
with `pat`; sufficient for `NoStraddleOcc pat lit`. -/
def noStraddleChk (pat lit : LC) : Bool :=
  (List.range lit.length).all (fun i =>
    !((lit.drop i).isPrefixOf pat) && !(pat.isPrefixOf (lit.drop i)))

/-! ## Well-formed directive blocks (input description for the extractor) -/

/-- `">` — closes the name attribute of a marker. -/
def quoteGt : LC := ['\x22', '>']

def invokeEnd : LC := "</invoke>".data

/-- A rendered parameter marker `<parameter name="n">v</parameter>`. -/
def mkParam (n v : LC) : LC := paramPfx ++ n ++ quoteGt ++ v ++ paramClose

def paramsBody (ps : List (LC × LC)) : LC :=
  (ps.map (fun q => mkParam q.1 q.2)).flatten

/-- A rendered invoke marker with its parameter markers. -/
def mkInvoke (nm : LC) (ps : List (LC × LC)) : LC :=
  invokePfx ++ nm ++ quoteGt ++ paramsBody ps ++ invokeEnd

/-- A rendered well-formed directive block. -/
def mkBlock (nm : LC) (ps : List (LC × LC)) : LC :=
  fcOpen ++ mkInvoke nm ps ++ fcClose

/-- A usable attribute value: non-empty, no quote (the `[^"]+` class) and no
`<` (so it cannot open a marker). -/
def goodAttr (s : LC) : Prop := s ≠ [] ∧ ∀ c ∈ s, c ≠ '\x22' ∧ c ≠ '<'

/-- A usable parameter value: non-empty and without `<` (the `[^<]+` class). -/
def goodVal (s : LC) : Prop := s ≠ [] ∧ ∀ c ∈ s, c ≠ '<'

/-- Filler text that contains no marker at all (no `<`). -/
def plainText (s : LC) : Prop := ∀ c ∈ s, c ≠ '<'

instance (s : LC) : Decidable (goodAttr s) :=
  inferInstanceAs (Decidable (s ≠ [] ∧ ∀ c ∈ s, c ≠ '\x22' ∧ c ≠ '<'))

instance (s : LC) : Decidable (goodVal s) :=
  inferInstanceAs (Decidable (s ≠ [] ∧ ∀ c ∈ s, c ≠ '<'))

instance (s : LC) : Decidable (plainText s) :=
  inferInstanceAs (Decidable (∀ c ∈ s, c ≠ '<'))

/-- C1 counterexample data: an SSE provider that is unreachable before the
start, spawns successfully, and still fails the settle-interval probe. -/
def cexC1Config : MCPServerConfig :=
  { name := "weather_server".data
    description := []
    transport_type := .sse
    command := some "python weather_server.py".data
    url := some "http://127.0.0.1:8000/sse".data
    port := some 8000 }

def cexC1State : ManagerState :=
  { servers := [("weather_server".data, cexC1Config)], processes := [] }

def cexC1World : World := { probes := [false, false], spawns := [some 4242] }

/-- Witness data for C3: a reachable SSE provider started twice. -/
def cexC3State : ManagerState :=
  { servers := [("weather_server".data, cexC1Config)], processes := [] }

def cexC3World : World := { probes := [true, true] }

/-- Witness data for C4: a connection-only SSE provider (no handle, no pid). -/
def cexC4State : ManagerState :=
  { servers := [("weather_server".data, cexC1Config)], processes := [] }

/-- Witness data for C5: one manual provider on port 8000, a scan that
answers on ports 8000 and 8001. -/
def cexC5State : ManagerState :=
  { servers := [("weather_server".data, cexC1Config)], processes := [] }

def cexC5Scan : Nat → Bool := fun q => q == 8000 || q == 8001

/-- C5 counterexample data: a manually configured provider registered under
the empty-string name (reachable through `add_server`, whose dict key is the
user-supplied name) claiming port 8000, and a scan that answers on 8000. -/
def cexC5EmptyConfig : MCPServerConfig :=
  { name := []
    description := []
    transport_type := .sse
    url := some "http://127.0.0.1:8000/sse".data
    port := some 8000
    status := "stopped".data }

def cexC5EmptyState : ManagerState :=
  { servers := [([], cexC5EmptyConfig)], processes := [] }

def cexC5EmptyScan : Nat → Bool := fun q => q == 8000

/-- C2 counterexample data: a manually configured provider on port 8001
followed by an auto-discovered record for the same port (reachable in the
source by re-adding the manual provider with that port, which overwrites
in place and keeps its earlier dict position). -/
def cexC2Manual : MCPServerConfig :=
  { name := "b".data
    description := []
    transport_type := .sse
    url := some "http://127.0.0.1:8001/sse".data
    port := some 8001 }

def cexC2Disc : MCPServerConfig :=
  { name := "discovered_server_8001".data
    description := []
    transport_type := .sse
    url := some "http://127.0.0.1:8001/sse".data
    port := some 8001
    auto_start := false
    status := "running".data }

def cexC2Reg : List (LC × MCPServerConfig) :=
  [("b".data, cexC2Manual), ("discovered_server_8001".data, cexC2Disc)]

/-- C8 counterexample data: a well-formed document with one record whose
`transport_type` is not a valid enum value. -/
def cexC8Rec : SavedRec :=
  { description := []
    transport_type := "bogus".data
    command := none
    url := none
    port := none
    working_directory := none
    env_vars := []
    auto_start := true
    health_check_endpoint := none
    pid := none
    status := "running".data }

/-- Witness for the amended C8: one valid record, then the invalid one. -/
def cexC8Good : SavedRec :=
  { description := []
    transport_type := "sse".data
    command := none
    url := some "http://127.0.0.1:8002/sse".data
    port := some 8002
    working_directory := none
    env_vars := []
    auto_start := true
    health_check_endpoint := none
    pid := none
    status := "running".data }

/-- Witness for C9: two providers both advertising `get_info`. -/
def cexC9ToolA : AdvertisedTool :=
  { name := "get_info".data, description := "from A".data, parameters := [] }

def cexC9ToolB : AdvertisedTool :=
  { name := "get_info".data, description := "from B".data, parameters := [] }

theorem dictLookup_set_self {α : Type} (d : List (LC × α)) (k : LC) (v : α) :
    dictLookup (dictSet d k v) k = some v := by
  induction d with
  | nil => simp [dictSet, dictLookup]
  | cons hd tl ih =>
    obtain ⟨k', v'⟩ := hd
    by_cases h : k' = k <;> simp [dictSet, dictLookup, h, ih]

theorem dictLookup_set_ne {α : Type} (d : List (LC × α)) (k k' : LC) (v : α)
    (h : k ≠ k') : dictLookup (dictSet d k v) k' = dictLookup d k' := by
  induction d with
  | nil => simp [dictSet, dictLookup, h]
  | cons hd tl ih =>
    obtain ⟨k₀, v₀⟩ := hd
    by_cases h0 : k₀ = k
    · subst h0
      simp [dictSet, dictLookup, h]
    · simp [dictSet, dictLookup, h0, ih]

theorem dictMem_set_ne {α : Type} (d : List (LC × α)) (k k' : LC) (v : α)
    (h : k ≠ k') : dictMem (dictSet d k v) k' = dictMem d k' := by
  induction d with
  | nil => simp [dictSet, dictMem, h]
  | cons hd tl ih =>
    obtain ⟨k₀, v₀⟩ := hd
    by_cases h0 : k₀ = k
    · subst h0
      simp [dictSet, dictMem, h, ih]
    · simp [dictSet, dictMem, h0, ih]

theorem dictSet_append_of_not_mem {α : Type} (d : List (LC × α)) (k : LC) (v : α)
    (h : dictMem d k = false) : dictSet d k v = d ++ [(k, v)] := by
  induction d with
  | nil => simp [dictSet]
  | cons hd tl ih =>
    obtain ⟨k₀, v₀⟩ := hd
    simp only [dictMem, Bool.or_eq_false_iff, decide_eq_false_iff_not] at h
    simp [dictSet, h.1, ih h.2]

theorem mem_dictSet {α : Type} {d : List (LC × α)} {k : LC} {v : α} {e : LC × α}
    (h : e ∈ dictSet d k v) : e ∈ d ∨ e = (k, v) := by
  induction d with
  | nil => simpa [dictSet] using h
  | cons hd tl ih =>
    obtain ⟨k₀, v₀⟩ := hd
    by_cases h0 : k₀ = k
    · subst h0
      simp only [dictSet, if_pos rfl, List.mem_cons, if_true, ite_true] at h
      rcases h with h1 | h1
      · right; simp [h1]
      · left; exact List.mem_cons_of_mem _ h1
    · simp only [dictSet, if_neg h0, List.mem_cons] at h
      rcases h with h1 | h1
      · left; simp [h1]
      · rcases ih h1 with h' | h'
        · left; exact List.mem_cons_of_mem _ h'
        · right; exact h'

/-! ## Lemmas about the scanners -/

theorem splitFirst_length {pat : LC} :
    ∀ {s pre post : LC}, splitFirst pat s = some (pre, post) →
      post.length + pat.length ≤ s.length := by
  intro s
  induction s with
  | nil => intro pre post h; simp [splitFirst] at h
  | cons c rest ih =>
    intro pre post h
    by_cases hp : pat.isPrefixOf (c :: rest) = true
    · rw [splitFirst, if_pos hp] at h
      have hle : pat.length ≤ rest.length + 1 := by
        have := ( List.isPrefixOf_iff_prefix.mp hp).length_le
        simpa using this
      have h' := Option.some.inj h
      rw [Prod.mk.injEq] at h'
      obtain ⟨h1, h2⟩ := h'
      subst h2
      simp [List.length_drop]
      omega
    · rw [splitFirst, if_neg hp] at h
      cases h' : splitFirst pat rest with
      | none => rw [h'] at h; simp at h
      | some pr =>
        obtain ⟨pre', post'⟩ := pr
        rw [h'] at h
        have hlen := ih h'
        have h'' := Option.some.inj h
        rw [Prod.mk.injEq] at h''
        obtain ⟨h1, h2⟩ := h''
        subst h2
        simp
        omega

theorem NoStraddleOcc.nil {pat : LC} : NoStraddleOcc pat [] := by
  intro b i hi
  simp at hi

theorem NoStraddleOcc.tail {pat : LC} {c : Char} {a : LC}
    (h : NoStraddleOcc pat (c :: a)) : NoStraddleOcc pat a := by
  intro b i hi
  have := h b (i + 1) (by simp; omega)
  simpa [List.cons_append] using this

theorem NoStraddleOcc.append {pat a a' : LC}
    (h1 : NoStraddleOcc pat a) (h2 : NoStraddleOcc pat a') :
    NoStraddleOcc pat (a ++ a') := by
  intro b i hi
  rw [List.append_assoc]
  by_cases hia : i < a.length
  · exact h1 (a' ++ b) i hia
  · intro hpre
    rw [List.drop_append_eq_append_drop, List.drop_eq_nil_of_le (by omega),
      List.nil_append] at hpre
    have hlen : i - a.length < a'.length := by
      simp [List.length_append] at hi
      omega
    exact h2 b (i - a.length) hlen hpre

theorem NoStraddleOcc.flatten {pat : LC} {L : List LC}
    (h : ∀ x ∈ L, NoStraddleOcc pat x) : NoStraddleOcc pat L.flatten := by
  induction L with
  | nil => simpa using NoStraddleOcc.nil
  | cons x xs ih =>
    rw [List.flatten_cons]
    exact (h x (by simp)).append (ih (fun y hy => h y (by simp [hy])))

/-- A list none of whose characters is the head of `pat` cannot contain a
start of `pat`. -/
theorem noStraddleOcc_of_head {c0 : Char} {pt a : LC}
    (h : ∀ c ∈ a, c ≠ c0) : NoStraddleOcc (c0 :: pt) a := by
  intro b i hi hpre
  obtain ⟨t, ht⟩ := hpre
  have hhead : ((a ++ b).drop i).head? = some c0 := by
    rw [← ht]
    simp
  rw [List.head?_drop] at hhead
  rw [List.getElem?_append_left hi] at hhead
  exact h c0 (List.getElem?_mem hhead) rfl

theorem noStraddleOcc_of_chk {pat lit : LC} (h : noStraddleChk pat lit = true) :
    NoStraddleOcc pat lit := by
  intro b i hi hpre
  rw [List.drop_append_eq_append_drop, Nat.sub_eq_zero_of_le (le_of_lt hi),
    List.drop_zero] at hpre
  have hcomp : pat <+: lit.drop i ∨ lit.drop i <+: pat :=
    List.prefix_or_prefix_of_prefix hpre ( List.prefix_append _ _)
  simp only [noStraddleChk, List.all_eq_true, List.mem_range] at h
  have hh := h i hi
  rw [Bool.and_eq_true, Bool.not_eq_true', Bool.not_eq_true'] at hh
  rcases hcomp with hc | hc
  · rw [← List.isPrefixOf_iff_prefix] at hc
    rw [hh.2] at hc
    exact Bool.false_ne_true hc
  · rw [← List.isPrefixOf_iff_prefix] at hc
    rw [hh.1] at hc
    exact Bool.false_ne_true hc

theorem splitFirst_append {pat : LC} (hpat : pat ≠ []) :
    ∀ (a : LC) (rest : LC), NoStraddleOcc pat a →
      splitFirst pat (a ++ (pat ++ rest)) = some (a, rest) := by
  intro a
  induction a with
  | nil =>
    intro rest _
    cases hp : pat with
    | nil => exact absurd hp hpat
    | cons p pt =>
      rw [List.nil_append, List.cons_append, splitFirst,
        if_pos ( List.isPrefixOf_iff_prefix.mpr (by rw [← List.cons_append]; exact List.prefix_append _ _))]
      rw [← List.cons_append, List.drop_left]
  | cons c a' ih =>
    intro rest h
    have h0 : ¬ pat <+: ((c :: a') ++ (pat ++ rest)) := by
      have := h (pat ++ rest) 0 (by simp)
      simpa using this
    rw [List.cons_append, splitFirst,
      if_neg (by rw [ List.isPrefixOf_iff_prefix]; rw [List.cons_append] at h0; exact h0)]
    rw [ih rest h.tail]

theorem splitFirst_eq_none {pat : LC} :
    ∀ {s : LC}, NoStraddleOcc pat s → splitFirst pat s = none := by
  intro s
  induction s with
  | nil => intro _; rfl
  | cons c rest ih =>
    intro h
    have h0 : ¬ pat <+: (c :: rest) := by
      have := h [] 0 (by simp)
      simpa using this
    rw [splitFirst, if_neg (by rw [ List.isPrefixOf_iff_prefix]; exact h0)]
    rw [ih h.tail]

theorem extractBlocksGo_congr :
    ∀ (f g : Nat) (s : LC), s.length < f → s.length < g →
      extractBlocksGo f s = extractBlocksGo g s := by
  intro f
  induction f with
  | zero => intro g s hf _; omega
  | succ f ih =>
    intro g s hf hg
    cases g with
    | zero => omega
    | succ g =>
      cases h1 : splitFirst fcOpen s with
      | none => simp only [extractBlocksGo, h1]
      | some pr =>
        obtain ⟨pre, afterOpen⟩ := pr
        cases h2 : splitFirst fcClose afterOpen with
        | none => simp only [extractBlocksGo, h1, h2]
        | some pr2 =>
          obtain ⟨block, rest⟩ := pr2
          have l1 := splitFirst_length h1
          have l2 := splitFirst_length h2
          have e1 : fcOpen.length = 16 := rfl
          have e2 : fcClose.length = 17 := rfl
          simp only [extractBlocksGo, h1, h2]
          rw [ih g rest (by omega) (by omega)]

theorem extractBlocks_step (a content rest : LC) (ha : NoStraddleOcc fcOpen a)
    (hc : NoStraddleOcc fcClose content) :
    extractBlocks (a ++ (fcOpen ++ (content ++ (fcClose ++ rest)))) =
      content :: extractBlocks rest := by
  have h1 : splitFirst fcOpen (a ++ (fcOpen ++ (content ++ (fcClose ++ rest)))) =
      some (a, content ++ (fcClose ++ rest)) :=
    splitFirst_append (by decide) a _ ha
  have h2 : splitFirst fcClose (content ++ (fcClose ++ rest)) = some (content, rest) :=
    splitFirst_append (by decide) content rest hc
  show extractBlocksGo _ _ = _
  rw [show (a ++ (fcOpen ++ (content ++ (fcClose ++ rest)))).length + 1 =
    (a ++ (fcOpen ++ (content ++ (fcClose ++ rest)))).length + 1 from rfl]
  simp only [extractBlocksGo, h1, h2]
  rw [extractBlocksGo_congr _ (rest.length + 1) rest
    (by
      have e1 : fcOpen.length = 16 := rfl
      have e2 : fcClose.length = 17 := rfl
      simp [List.length_append]
      omega)
    (by omega)]
  rfl

theorem extractBlocks_none {s : LC} (h : NoStraddleOcc fcOpen s) :
    extractBlocks s = [] := by
  show extractBlocksGo _ _ = _
  simp only [extractBlocksGo, splitFirst_eq_none h]

theorem takeWhile_append_all {p : Char → Bool} :
    ∀ {a : LC}, (∀ c ∈ a, p c = true) → ∀ (b : LC),
      (a ++ b).takeWhile p = a ++ b.takeWhile p := by
  intro a
  induction a with
  | nil => intro _ b; simp
  | cons c a' ih =>
    intro h b
    have hc : p c = true := h c (by simp)
    simp only [List.cons_append, List.takeWhile_cons, hc, if_true]
    rw [ih (fun x hx => h x (by simp [hx])) b]

theorem dropWhile_append_all {p : Char → Bool} :
    ∀ {a : LC}, (∀ c ∈ a, p c = true) → ∀ (b : LC),
      (a ++ b).dropWhile p = b.dropWhile p := by
  intro a
  induction a with
  | nil => intro _ b; simp
  | cons c a' ih =>
    intro h b
    have hc : p c = true := h c (by simp)
    simp only [List.cons_append, List.dropWhile_cons, hc, if_true]
    exact ih (fun x hx => h x (by simp [hx])) b

theorem findInvokeName_hit (nm rest : LC) (hnm : nm ≠ [])
    (hq : ∀ c ∈ nm, c ≠ '\x22') :
    findInvokeName (invokePfx ++ (nm ++ ('\x22' :: '>' :: rest))) = some nm := by
  have hshape : invokePfx ++ (nm ++ ('\x22' :: '>' :: rest)) =
      '<' :: ("invoke name=\x22".data ++ (nm ++ ('\x22' :: '>' :: rest))) := rfl
  rw [hshape, findInvokeName]
  rw [if_pos (by
    rw [← hshape, List.isPrefixOf_iff_prefix]
    exact List.prefix_append _ _)]
  have hdrop : ('<' :: ("invoke name=\x22".data ++ (nm ++ ('\x22' :: '>' :: rest)))).drop
      invokePfx.length = nm ++ ('\x22' :: '>' :: rest) := by
    rw [← hshape]
    exact List.drop_left _ _
  rw [hdrop]
  have hqb : ∀ c ∈ nm, (fun ch => decide (ch ≠ '\x22')) c = true := by
    intro c hc
    simp [hq c hc]
  simp only [takeWhile_append_all hqb, dropWhile_append_all hqb, List.takeWhile_cons,
    List.dropWhile_cons]
  simp [hnm]

theorem findParamsGo_congr :
    ∀ (f g : Nat) (s : LC), s.length < f → s.length < g →
      findParamsGo f s = findParamsGo g s := by
  intro f
  induction f with
  | zero => intro g s hf _; omega
  | succ f ih =>
    intro g s hf hg
    cases g with
    | zero => omega
    | succ g =>
      cases s with
      | nil => simp [findParamsGo]
      | cons c rest =>
        simp only [List.length_cons] at hf hg
        have epp : paramPfx.length = 17 := rfl
        have hlen : ((c :: rest).drop paramPfx.length).length ≤ rest.length := by
          rw [List.length_drop, epp]
          simp only [List.length_cons]
          omega
        simp only [findParamsGo]
        split
        · split
          · split
            · have h3 :
                  (((((c :: rest).drop paramPfx.length).dropWhile
                    (fun ch => ch ≠ '\x22')).drop 2).dropWhile
                    (fun ch => ch ≠ '<')).length ≤ rest.length := by
                calc _ ≤ ((((c :: rest).drop paramPfx.length).dropWhile
                      (fun ch => ch ≠ '\x22')).drop 2).length :=
                        (List.dropWhile_suffix _).sublist.length_le
                  _ ≤ (((c :: rest).drop paramPfx.length).dropWhile
                      (fun ch => ch ≠ '\x22')).length := by
                        rw [List.length_drop]
                        omega
                  _ ≤ ((c :: rest).drop paramPfx.length).length :=
                        (List.dropWhile_suffix _).sublist.length_le
                  _ ≤ rest.length := hlen
              have h4 :
                  ((((((c :: rest).drop paramPfx.length).dropWhile
                    (fun ch => ch ≠ '\x22')).drop 2).dropWhile
                    (fun ch => ch ≠ '<')).drop paramClose.length).length ≤
                  (((((c :: rest).drop paramPfx.length).dropWhile
                    (fun ch => ch ≠ '\x22')).drop 2).dropWhile
                    (fun ch => ch ≠ '<')).length := by
                rw [List.length_drop]
                omega
              rw [ih g _ (by omega) (by omega)]
            · exact ih g rest (by omega) (by omega)
          · exact ih g rest (by omega) (by omega)
        · exact ih g rest (by omega) (by omega)

theorem findParams_cons_skip (c : Char) (s : LC) (h : ¬ paramPfx <+: (c :: s)) :
    findParams (c :: s) = findParams s := by
  show findParamsGo ((c :: s).length + 1) (c :: s) = findParams s
  simp only [List.length_cons]
  simp only [findParamsGo]
  rw [if_neg (by rw [ List.isPrefixOf_iff_prefix]; exact h)]
  rfl

theorem findParams_junk : ∀ (junk s : LC), NoStraddleOcc paramPfx junk →
    findParams (junk ++ s) = findParams s := by
  intro junk
  induction junk with
  | nil => intro s _; rfl
  | cons c j ih =>
    intro s h
    rw [List.cons_append, findParams_cons_skip c (j ++ s)
      (by
        have := h s 0 (by simp)
        simpa [List.cons_append] using this)]
    exact ih s h.tail

theorem findParams_hit (n v rest : LC) (hn : n ≠ []) (hnq : ∀ c ∈ n, c ≠ '\x22')
    (hv : v ≠ []) (hvlt : ∀ c ∈ v, c ≠ '<') :
    findParams (paramPfx ++ (n ++ ('\x22' :: '>' :: (v ++ (paramClose ++ rest))))) =
      (n, v) :: findParams rest := by
  have hnb : ∀ c ∈ n, (fun ch => decide (ch ≠ '\x22')) c = true := fun c hc => by
    simp [hnq c hc]
  have hvb : ∀ c ∈ v, (fun ch => decide (ch ≠ '<')) c = true := fun c hc => by
    simp [hvlt c hc]
  have hshape : paramPfx ++ (n ++ ('\x22' :: '>' :: (v ++ (paramClose ++ rest)))) =
      '<' :: ("parameter name=\x22".data ++
        (n ++ ('\x22' :: '>' :: (v ++ (paramClose ++ rest))))) := rfl
  have hshape2 : paramClose ++ rest = '<' :: ("/parameter>".data ++ rest) := rfl
  have hdrop : ('<' :: ("parameter name=\x22".data ++
      (n ++ ('\x22' :: '>' :: (v ++ (paramClose ++ rest)))))).drop paramPfx.length =
      n ++ ('\x22' :: '>' :: (v ++ (paramClose ++ rest))) := by
    rw [← hshape]
    exact List.drop_left _ _
  have e1 : (n ++ ('\x22' :: '>' :: (v ++ (paramClose ++ rest)))).takeWhile
      (fun ch => decide (ch ≠ '\x22')) = n := by
    rw [takeWhile_append_all hnb]
    simp
  have e2 : (n ++ ('\x22' :: '>' :: (v ++ (paramClose ++ rest)))).dropWhile
      (fun ch => decide (ch ≠ '\x22')) = '\x22' :: '>' :: (v ++ (paramClose ++ rest)) := by
    rw [dropWhile_append_all hnb]
    simp
  have e3 : (v ++ (paramClose ++ rest)).takeWhile (fun ch => decide (ch ≠ '<')) = v := by
    rw [takeWhile_append_all hvb, hshape2]
    simp
  have e4 : (v ++ (paramClose ++ rest)).dropWhile (fun ch => decide (ch ≠ '<')) =
      paramClose ++ rest := by
    rw [dropWhile_append_all hvb, hshape2]
    simp
  show findParamsGo
      ((paramPfx ++ (n ++ ('\x22' :: '>' :: (v ++ (paramClose ++ rest))))).length + 1)
      (paramPfx ++ (n ++ ('\x22' :: '>' :: (v ++ (paramClose ++ rest))))) =
      (n, v) :: findParams rest
  rw [hshape]
  simp only [findParamsGo]
  rw [if_pos (by
    rw [← hshape, List.isPrefixOf_iff_prefix]
    exact List.prefix_append _ _)]
  simp only [hdrop, e1, e2, List.take_succ_cons, List.take_zero, List.drop_succ_cons,
    List.drop_zero, e3, e4]
  rw [if_pos (And.intro hn trivial)]
  rw [if_pos (And.intro hv (by
    rw [ List.isPrefixOf_iff_prefix]
    exact List.prefix_append _ _))]
  rw [List.drop_left]
  congr 1
  apply findParamsGo_congr
  · have ell : paramClose.length = 12 := rfl
    simp [List.length_append]
    omega
  · omega

theorem ns_fcOpen_of_plain {a : LC} (h : ∀ c ∈ a, c ≠ '<') :
    NoStraddleOcc fcOpen a := by
  have e : fcOpen = '<' :: "function_calls>".data := rfl
  rw [e]
  exact noStraddleOcc_of_head h

theorem ns_fcClose_of_plain {a : LC} (h : ∀ c ∈ a, c ≠ '<') :
    NoStraddleOcc fcClose a := by
  have e : fcClose = '<' :: "/function_calls>".data := rfl
  rw [e]
  exact noStraddleOcc_of_head h

theorem ns_paramPfx_of_plain {a : LC} (h : ∀ c ∈ a, c ≠ '<') :
    NoStraddleOcc paramPfx a := by
  have e : paramPfx = '<' :: "parameter name=\x22".data := rfl
  rw [e]
  exact noStraddleOcc_of_head h

theorem ns_close_invokePfx : NoStraddleOcc fcClose invokePfx :=
  noStraddleOcc_of_chk (by decide)

theorem ns_close_paramPfx : NoStraddleOcc fcClose paramPfx :=
  noStraddleOcc_of_chk (by decide)

theorem ns_close_paramClose : NoStraddleOcc fcClose paramClose :=
  noStraddleOcc_of_chk (by decide)

theorem ns_close_invokeEnd : NoStraddleOcc fcClose invokeEnd :=
  noStraddleOcc_of_chk (by decide)

theorem ns_param_invokePfx : NoStraddleOcc paramPfx invokePfx :=
  noStraddleOcc_of_chk (by decide)

theorem ns_close_quoteGt : NoStraddleOcc fcClose quoteGt :=
  ns_fcClose_of_plain (by decide)

theorem ns_close_mkParam {qn qv : LC} (h1 : ∀ c ∈ qn, c ≠ '<')
    (h2 : ∀ c ∈ qv, c ≠ '<') : NoStraddleOcc fcClose (mkParam qn qv) := by
  rw [mkParam]
  exact (((ns_close_paramPfx.append (ns_fcClose_of_plain h1)).append
    ns_close_quoteGt).append (ns_fcClose_of_plain h2)).append ns_close_paramClose

theorem ns_close_paramsBody {ps : List (LC × LC)}
    (hps : ∀ q ∈ ps, (∀ c ∈ q.1, c ≠ '<') ∧ (∀ c ∈ q.2, c ≠ '<')) :
    NoStraddleOcc fcClose (paramsBody ps) := by
  rw [paramsBody]
  apply NoStraddleOcc.flatten
  intro x hx
  rw [List.mem_map] at hx
  obtain ⟨q, hqmem, hqx⟩ := hx
  subst hqx
  exact ns_close_mkParam (hps q hqmem).1 (hps q hqmem).2

theorem ns_close_mkInvoke {nm : LC} {ps : List (LC × LC)}
    (hnm : ∀ c ∈ nm, c ≠ '<')
    (hps : ∀ q ∈ ps, (∀ c ∈ q.1, c ≠ '<') ∧ (∀ c ∈ q.2, c ≠ '<')) :
    NoStraddleOcc fcClose (mkInvoke nm ps) := by
  rw [mkInvoke]
  exact (((ns_close_invokePfx.append (ns_fcClose_of_plain hnm)).append
    ns_close_quoteGt).append (ns_close_paramsBody hps)).append ns_close_invokeEnd

theorem findParams_paramsBody (ps : List (LC × LC)) (rest : LC)
    (hps : ∀ q ∈ ps, q.1 ≠ [] ∧ (∀ c ∈ q.1, c ≠ '\x22' ∧ c ≠ '<') ∧
      q.2 ≠ [] ∧ (∀ c ∈ q.2, c ≠ '<')) :
    findParams (paramsBody ps ++ rest) = ps ++ findParams rest := by
  induction ps with
  | nil => simp [paramsBody]
  | cons q ps' ih =>
    obtain ⟨qn, qv⟩ := q
    have hq := hps (qn, qv) (by simp)
    have hass : paramsBody ((qn, qv) :: ps') ++ rest =
        paramPfx ++ (qn ++ ('\x22' :: '>' ::
          (qv ++ (paramClose ++ (paramsBody ps' ++ rest))))) := by
      simp [paramsBody, mkParam, quoteGt, List.append_assoc]
    rw [hass, findParams_hit qn qv _ hq.1 (fun c hc => (hq.2.1 c hc).1)
      hq.2.2.1 hq.2.2.2]
    rw [ih (fun q hq' => hps q (by simp [hq']))]
    simp

theorem findParams_mkInvoke (nm : LC) (ps : List (LC × LC))
    (hnm : ∀ c ∈ nm, c ≠ '<')
    (hps : ∀ q ∈ ps, q.1 ≠ [] ∧ (∀ c ∈ q.1, c ≠ '\x22' ∧ c ≠ '<') ∧
      q.2 ≠ [] ∧ (∀ c ∈ q.2, c ≠ '<')) :
    findParams (mkInvoke nm ps) = ps := by
  rw [mkInvoke]
  have hass : invokePfx ++ nm ++ quoteGt ++ paramsBody ps ++ invokeEnd =
      (invokePfx ++ (nm ++ quoteGt)) ++ (paramsBody ps ++ invokeEnd) := by
    simp [List.append_assoc]
  rw [hass]
  rw [findParams_junk _ _ (by
    apply NoStraddleOcc.append ns_param_invokePfx
    apply NoStraddleOcc.append
    · exact ns_paramPfx_of_plain hnm
    · exact ns_paramPfx_of_plain (by decide))]
  rw [findParams_paramsBody ps invokeEnd hps]
  have hend : findParams invokeEnd = [] := by decide
  rw [hend, List.append_nil]

theorem findInvokeName_mkInvoke (nm : LC) (ps : List (LC × LC)) (hnm : nm ≠ [])
    (hq : ∀ c ∈ nm, c ≠ '\x22') :
    findInvokeName (mkInvoke nm ps) = some nm := by
  rw [mkInvoke]
  have hass : invokePfx ++ nm ++ quoteGt ++ paramsBody ps ++ invokeEnd =
      invokePfx ++ (nm ++ ('\x22' :: '>' :: (paramsBody ps ++ invokeEnd))) := by
    simp [quoteGt, List.append_assoc]
  rw [hass]
  exact findInvokeName_hit nm _ hnm hq

theorem dictMem_append {α : Type} (a b : List (LC × α)) (k : LC) :
    dictMem (a ++ b) k = (dictMem a k || dictMem b k) := by
  induction a with
  | nil => simp [dictMem]
  | cons hd tl ih =>
    obtain ⟨k₀, v₀⟩ := hd
    simp [dictMem, ih, Bool.or_assoc]

theorem foldl_dictSet_append (ps : List (LC × LC)) : ∀ acc : List (LC × LC),
    (ps.map Prod.fst).Nodup →
    (∀ q ∈ ps, dictMem acc q.1 = false) →
    ps.foldl (fun m q => dictSet m q.1 q.2) acc = acc ++ ps := by
  induction ps with
  | nil => intro acc _ _; simp
  | cons q ps' ih =>
    intro acc hnd hmem
    obtain ⟨hq1, hnd'⟩ := List.nodup_cons.mp hnd
    rw [List.foldl_cons, dictSet_append_of_not_mem acc q.1 q.2 (hmem q (by simp))]
    rw [ih (acc ++ [(q.1, q.2)]) hnd' (by
      intro p hp
      rw [dictMem_append, hmem p (by simp [hp]), Bool.false_or]
      have hne : q.1 ≠ p.1 := by
        intro hcontra
        exact hq1 (by rw [hcontra]; exact List.mem_map_of_mem Prod.fst hp)
      simp [dictMem, hne])]
    simp

theorem buildArgs_eq_self (ps : List (LC × LC)) (hnd : (ps.map Prod.fst).Nodup) :
    buildArgs ps = ps := by
  have := foldl_dictSet_append ps [] hnd (by intro q _; rfl)
  simpa [buildArgs] using this

/-- C6: for every response text consisting of two well-formed directive
blocks — one for procedure `nmA`, one for procedure `nmB`, each with its
parameter markers (distinct parameter names, literal values) — surrounded
by marker-free filler text, `_extract_tool_calls` returns exactly the two
directives in source order, and each directive's arguments mapping holds
every declared parameter with its value verbatim. -/
theorem claim_C6 (pre mid post nmA nmB : LC) (psA psB : List (LC × LC))
    (hpre : plainText pre) (hmid : plainText mid) (hpost : plainText post)
    (hA : goodAttr nmA) (hB : goodAttr nmB)
    (hpsA : psA ≠ []) (hpsB : psB ≠ [])
    (hqa : ∀ q ∈ psA, goodAttr q.1 ∧ goodVal q.2)
    (hqb : ∀ q ∈ psB, goodAttr q.1 ∧ goodVal q.2)
    (hndA : (psA.map Prod.fst).Nodup) (hndB : (psB.map Prod.fst).Nodup) :
    extract_tool_calls (pre ++ mkBlock nmA psA ++ mid ++ mkBlock nmB psB ++ post) =
      [{ name := nmA, arguments := psA }, { name := nmB, arguments := psB }] := by
  have hassoc : pre ++ mkBlock nmA psA ++ mid ++ mkBlock nmB psB ++ post =
      pre ++ (fcOpen ++ (mkInvoke nmA psA ++ (fcClose ++
        (mid ++ (fcOpen ++ (mkInvoke nmB psB ++ (fcClose ++ post))))))) := by
    simp [mkBlock, List.append_assoc]
  have hcvtA : ∀ q ∈ psA, (∀ c ∈ q.1, c ≠ '<') ∧ (∀ c ∈ q.2, c ≠ '<') :=
    fun q hq => ⟨fun c hc => ((hqa q hq).1.2 c hc).2, fun c hc => (hqa q hq).2.2 c hc⟩
  have hcvtB : ∀ q ∈ psB, (∀ c ∈ q.1, c ≠ '<') ∧ (∀ c ∈ q.2, c ≠ '<') :=
    fun q hq => ⟨fun c hc => ((hqb q hq).1.2 c hc).2, fun c hc => (hqb q hq).2.2 c hc⟩
  have hfmtA : ∀ q ∈ psA, q.1 ≠ [] ∧ (∀ c ∈ q.1, c ≠ '\x22' ∧ c ≠ '<') ∧
      q.2 ≠ [] ∧ (∀ c ∈ q.2, c ≠ '<') :=
    fun q hq => ⟨(hqa q hq).1.1, (hqa q hq).1.2, (hqa q hq).2.1, (hqa q hq).2.2⟩
  have hfmtB : ∀ q ∈ psB, q.1 ≠ [] ∧ (∀ c ∈ q.1, c ≠ '\x22' ∧ c ≠ '<') ∧
      q.2 ≠ [] ∧ (∀ c ∈ q.2, c ≠ '<') :=
    fun q hq => ⟨(hqb q hq).1.1, (hqb q hq).1.2, (hqb q hq).2.1, (hqb q hq).2.2⟩
  rw [extract_tool_calls, hassoc]
  rw [extractBlocks_step _ _ _ (ns_fcOpen_of_plain hpre)
    (ns_close_mkInvoke (fun c hc => (hA.2 c hc).2) hcvtA)]
  rw [extractBlocks_step _ _ _ (ns_fcOpen_of_plain hmid)
    (ns_close_mkInvoke (fun c hc => (hB.2 c hc).2) hcvtB)]
  rw [extractBlocks_none (ns_fcOpen_of_plain hpost)]
  simp only [List.filterMap_cons, List.filterMap_nil,
    findInvokeName_mkInvoke nmA psA hA.1 (fun c hc => (hA.2 c hc).1),
    findInvokeName_mkInvoke nmB psB hB.1 (fun c hc => (hB.2 c hc).1),
    findParams_mkInvoke nmA psA (fun c hc => (hA.2 c hc).2) hfmtA,
    findParams_mkInvoke nmB psB (fun c hc => (hB.2 c hc).2) hfmtB,
    buildArgs_eq_self psA hndA, buildArgs_eq_self psB hndB]

/-- Witness for C6 at a concrete two-block response. -/
theorem claim_C6_witness :
    plainText "Let me call two tools. ".data ∧ goodAttr "get_weather".data ∧
      extract_tool_calls ("Let me call two tools. ".data ++
        mkBlock "get_weather".data [("city".data, "Beijing".data)] ++
        " and ".data ++
        mkBlock "get_location".data [("employee_id".data, "D0005".data)] ++
        " done".data) =
      [{ name := "get_weather".data, arguments := [("city".data, "Beijing".data)] },
       { name := "get_location".data,
         arguments := [("employee_id".data, "D0005".data)] }] :=
  ⟨by decide, by decide,
    claim_C6 _ _ _ _ _ _ _ (by decide) (by decide) (by decide) (by decide)
      (by decide) (by decide) (by decide) (by decide) (by decide) (by decide)
      (by decide)⟩

/-- C7: a response without the directive markers yields an empty directive
sequence, and the orchestrator returns the buffered first response
unchanged, dispatching no tool and issuing no second completion call. -/
theorem claim_C7 (resp : LC) (runTool : LC → List (LC × LC) → LC)
    (synth : LC → List (ToolCall × LC) → LC)
    (h : splitFirst fcOpen resp = none) :
    extract_tool_calls resp = [] ∧
      process_query resp runTool synth = (resp, [], false) := by
  have hb : extractBlocks resp = [] := by
    show extractBlocksGo _ _ = _
    simp only [extractBlocksGo, h]
  have hext : extract_tool_calls resp = [] := by
    rw [extract_tool_calls, hb]
    rfl
  refine ⟨hext, ?_⟩
  have hcs : containsSub fcOpen resp = false := by
    rw [containsSub, h]
    rfl
  simp [process_query, hcs]

/-- Witness for C7 at a concrete marker-free response. -/
theorem claim_C7_witness :
    splitFirst fcOpen "今天天气不错，不需要调用工具。".data = none ∧
      (extract_tool_calls "今天天气不错，不需要调用工具。".data = [] ∧
        process_query "今天天气不错，不需要调用工具。".data
          (fun _ _ => []) (fun _ _ => []) =
          ("今天天气不错，不需要调用工具。".data, [], false)) :=
  ⟨by decide, claim_C7 _ _ _ (by decide)⟩

/-- A reachable SSE provider is started without spawning: the first probe
succeeds, the status is set to `"running"`, and the call returns `True`. -/
theorem start_server_reachable (st : ManagerState) (w : World) (name u : LC)
    (config : MCPServerConfig) (pbs : List Bool)
    (hlook : dictLookup st.servers name = some config)
    (htr : config.transport_type = .sse)
    (hurl : config.url = some u)
    (hpb : w.probes = true :: pbs) :
    start_server st w name =
      (true, putConfig st name { config with status := statusRunning },
        { w with probes := pbs }) := by
  simp [start_server, check_server_health, takeProbe, hlook, htr, hurl, hpb]

/-- After a successful `start_server` on an SSE provider, the provider is
still registered under its name with the same transport and url. -/
theorem start_server_true_sse_lookup (st : ManagerState) (w : World) (name u : LC)
    (config : MCPServerConfig) (st1 : ManagerState) (w1 : World)
    (hlook : dictLookup st.servers name = some config)
    (htr : config.transport_type = .sse)
    (hurl : config.url = some u)
    (h1 : start_server st w name = (true, st1, w1)) :
    ∃ c', dictLookup st1.servers name = some c' ∧
      c'.transport_type = .sse ∧ c'.url = some u := by
  obtain ⟨pb, sp, hsq, paq, pstq⟩ := w
  rcases pb with _ | ⟨b0, pr⟩
  · rcases hcmd : config.command with _ | cmd
    · simp [start_server, check_server_health, takeProbe, takeSpawn,
        hlook, htr, hurl, hcmd] at h1
    · rcases sp with _ | ⟨s0, sp'⟩
      · simp [start_server, check_server_health, takeProbe, takeSpawn,
          hlook, htr, hurl, hcmd] at h1
      · rcases s0 with _ | pid
        · simp [start_server, check_server_health, takeProbe, takeSpawn,
            hlook, htr, hurl, hcmd] at h1
        · simp [start_server, check_server_health, takeProbe, takeSpawn,
            hlook, htr, hurl, hcmd] at h1
  · cases b0
    · rcases hcmd : config.command with _ | cmd
      · simp [start_server, check_server_health, takeProbe, takeSpawn,
          hlook, htr, hurl, hcmd] at h1
      · rcases sp with _ | ⟨s0, sp'⟩
        · simp [start_server, check_server_health, takeProbe, takeSpawn,
            hlook, htr, hurl, hcmd] at h1
        · rcases s0 with _ | pid
          · simp [start_server, check_server_health, takeProbe, takeSpawn,
              hlook, htr, hurl, hcmd] at h1
          · rcases pr with _ | ⟨b1, pr'⟩
            · simp [start_server, check_server_health, takeProbe, takeSpawn,
                hlook, htr, hurl, hcmd] at h1
            · cases b1
              · simp [start_server, check_server_health, takeProbe, takeSpawn,
                  hlook, htr, hurl, hcmd] at h1
              · simp only [start_server, check_server_health, takeProbe, takeSpawn,
                  hlook, htr, hurl, hcmd, Prod.mk.injEq, true_and] at h1
                obtain ⟨hst, _⟩ := h1
                subst hst
                exact ⟨_, dictLookup_set_self _ _ _, by simp, by simp⟩
    · simp only [start_server, check_server_health, takeProbe,
        hlook, htr, hurl, Prod.mk.injEq, true_and] at h1
      obtain ⟨hst, _⟩ := h1
      subst hst
      exact ⟨_, dictLookup_set_self _ _ _, by simp, by simp⟩

/-- C1 as written is false: when the second probe (after the spawn and the
settle interval) fails, `start_server` returns `False` but the status is
`"running"` — set at spawn time — and not `"error"`. -/
theorem claim_C1_counterexample :
    (start_server cexC1State cexC1World "weather_server".data).1 = false ∧
      (dictLookup (start_server cexC1State cexC1World "weather_server".data).2.1.servers
        "weather_server".data).map MCPServerConfig.status = some statusRunning ∧
      statusRunning ≠ statusError := by
  decide

/-- C1 (amended): for an unreachable SSE provider with a launch command,
`start_server` spawns, records the pid, marks the status `"running"` at
spawn time, waits the settle interval, probes again and returns the second
probe's outcome as its result — the status remains `"running"` whether or
not that probe succeeds; `"error"` is reserved for a raising spawn. -/
theorem claim_C1_amended (st : ManagerState) (name u cmd : LC)
    (config : MCPServerConfig) (b : Bool) (pid : Nat)
    (pbs : List Bool) (sps : List (Option Nat)) (hsq : List HandleStopOutcome)
    (paq : List Bool) (pstq : List PidStopOutcome)
    (hlook : dictLookup st.servers name = some config)
    (htr : config.transport_type = .sse)
    (hurl : config.url = some u)
    (hcmd : config.command = some cmd) :
    start_server st
      { probes := false :: b :: pbs, spawns := some pid :: sps,
        handleStops := hsq, pidAlive := paq, pidStops := pstq } name =
      (b,
        { servers := dictSet st.servers name
            { config with pid := some pid, status := statusRunning }
          processes := dictSet st.processes name pid },
        { probes := pbs, spawns := sps,
          handleStops := hsq, pidAlive := paq, pidStops := pstq }) := by
  simp [start_server, check_server_health, takeProbe, takeSpawn,
    hlook, htr, hurl, hcmd]

/-- Witness for the amended C1. -/
theorem claim_C1_amended_witness :
    dictLookup cexC1State.servers "weather_server".data = some cexC1Config ∧
      start_server cexC1State cexC1World "weather_server".data =
      (false,
        { servers := dictSet cexC1State.servers "weather_server".data
            { cexC1Config with pid := some 4242, status := statusRunning }
          processes := dictSet cexC1State.processes "weather_server".data 4242 },
        { probes := [], spawns := [] }) :=
  ⟨by decide,
    claim_C1_amended cexC1State "weather_server".data
      "http://127.0.0.1:8000/sse".data "python weather_server.py".data
      cexC1Config false 4242 [] [] [] [] []
      (by decide) (by decide) (by decide) (by decide)⟩

/-- C3: for a provider with SSE transport and `auto_start = true`, if a
first `start_server` succeeded and the provider is reachable afterwards,
the second `start_server` is idempotent: it returns `True`, spawns nothing
(the spawn queue and the process table are untouched) and leaves the
status `"running"`. -/
theorem claim_C3 (st st1 : ManagerState) (w w1 : World) (name u : LC)
    (config : MCPServerConfig) (pbs : List Bool)
    (hlook : dictLookup st.servers name = some config)
    (htr : config.transport_type = .sse)
    (hurl : config.url = some u)
    (hauto : config.auto_start = true)
    (h1 : start_server st w name = (true, st1, w1))
    (hreach : w1.probes = true :: pbs) :
    ∃ st2, start_server st1 w1 name = (true, st2, { w1 with probes := pbs }) ∧
      st2.processes = st1.processes ∧
      (dictLookup st2.servers name).map MCPServerConfig.status =
        some statusRunning := by
  obtain ⟨c', hlook', htr', hurl'⟩ :=
    start_server_true_sse_lookup st w name u config st1 w1 hlook htr hurl h1
  refine ⟨putConfig st1 name { c' with status := statusRunning }, ?_, ?_, ?_⟩
  · exact start_server_reachable st1 w1 name u c' pbs hlook' htr' hurl' hreach
  · rfl
  · simp [putConfig, dictLookup_set_self]

/-- Witness for C3. -/
theorem claim_C3_witness :
    (dictLookup cexC3State.servers "weather_server".data = some cexC1Config ∧
      start_server cexC3State cexC3World "weather_server".data =
        (true, putConfig cexC3State "weather_server".data
          { cexC1Config with status := statusRunning }, { probes := [true] }) ∧
      ({ probes := [true] } : World).probes = [true]) ∧
      (∃ st2, start_server
          (putConfig cexC3State "weather_server".data
            { cexC1Config with status := statusRunning })
          { probes := [true] } "weather_server".data =
          (true, st2, { probes := [] }) ∧
        st2.processes = (putConfig cexC3State "weather_server".data
          { cexC1Config with status := statusRunning }).processes ∧
        (dictLookup st2.servers "weather_server".data).map MCPServerConfig.status =
          some statusRunning) := by
  refine ⟨⟨by decide, by decide, rfl⟩, ?_⟩
  exact claim_C3 cexC3State
    (putConfig cexC3State "weather_server".data
      { cexC1Config with status := statusRunning })
    cexC3World { probes := [true] } "weather_server".data
    "http://127.0.0.1:8000/sse".data cexC1Config []
    (by decide) (by decide) (by decide) (by decide) (by decide) (by decide)

/-- C4: `stop_server` on an SSE provider with no tracked handle and no
recorded pid falls through to the liveness probe: a failing probe ends with
status `"stopped"` (and a cleared pid), a succeeding probe ends with status
`"unknown"` — never `"stopped"`. -/
theorem claim_C4 (st : ManagerState) (name u : LC) (config : MCPServerConfig)
    (b : Bool) (pbs : List Bool) (sps : List (Option Nat))
    (hsq : List HandleStopOutcome) (paq : List Bool) (pstq : List PidStopOutcome)
    (hnoproc : dictLookup st.processes name = none)
    (hlook : dictLookup st.servers name = some config)
    (hpid : config.pid = none)
    (htr : config.transport_type = .sse)
    (hurl : config.url = some u) :
    stop_server st
      { probes := b :: pbs, spawns := sps, handleStops := hsq,
        pidAlive := paq, pidStops := pstq } name =
      ({ servers := dictSet st.servers name
          (if b then { config with status := statusUnknown }
           else { config with status := statusStopped, pid := none })
         processes := st.processes },
        { probes := pbs, spawns := sps, handleStops := hsq,
          pidAlive := paq, pidStops := pstq }) := by
  cases b <;>
    simp [stop_server, check_server_health, takeProbe,
      hnoproc, hlook, hpid, htr, hurl]

/-- Witness for C4, exercising the failing-probe side (status `"stopped"`). -/
theorem claim_C4_witness :
    (dictLookup cexC4State.processes "weather_server".data = none ∧
      cexC1Config.pid = none) ∧
      stop_server cexC4State { probes := [false] } "weather_server".data =
      ({ servers := dictSet cexC4State.servers "weather_server".data
          { cexC1Config with status := statusStopped, pid := none }
         processes := cexC4State.processes },
        ({ } : World)) :=
  ⟨⟨by decide, by decide⟩, by
    have h := claim_C4 cexC4State "weather_server".data
      "http://127.0.0.1:8000/sse".data cexC1Config false [] [] [] [] []
      (by decide) (by decide) (by decide) (by decide) (by decide)
    simpa using h⟩

theorem find_server_by_port_lookup {d : List (LC × MCPServerConfig)}
    {port : Option Nat} {m : LC} (h : find_server_by_port d port = some m) :
    ∃ c, dictLookup d m = some c := by
  induction d with
  | nil => simp [find_server_by_port] at h
  | cons hd tl ih =>
    obtain ⟨n, c⟩ := hd
    by_cases hc : c.port = port ∧ ¬ (discoveredPfx.isPrefixOf n = true)
    · rw [find_server_by_port, if_pos hc] at h
      have hm : n = m := Option.some.inj h
      subst hm
      exact ⟨c, by rw [dictLookup, if_pos rfl]⟩
    · rw [find_server_by_port, if_neg hc] at h
      obtain ⟨c', hc'⟩ := ih h
      by_cases hn : n = m
      · exact ⟨c, by rw [dictLookup, if_pos hn]⟩
      · exact ⟨c', by rw [dictLookup, if_neg hn]; exact hc'⟩

theorem find_server_by_port_not_discovered {d : List (LC × MCPServerConfig)}
    {port : Option Nat} {m : LC} (h : find_server_by_port d port = some m) :
    discoveredPfx.isPrefixOf m = false := by
  induction d with
  | nil => simp [find_server_by_port] at h
  | cons hd tl ih =>
    obtain ⟨n, c⟩ := hd
    by_cases hc : c.port = port ∧ ¬ (discoveredPfx.isPrefixOf n = true)
    · rw [find_server_by_port, if_pos hc] at h
      have hm : n = m := Option.some.inj h
      subst hm
      cases hb : discoveredPfx.isPrefixOf n
      · rfl
      · exact absurd hb hc.2
    · rw [find_server_by_port, if_neg hc] at h
      exact ih h

theorem dictLookup_setStatus_ne (d : List (LC × MCPServerConfig)) (k k' s)
    (h : k ≠ k') : dictLookup (dictSetStatus d k s) k' = dictLookup d k' := by
  induction d with
  | nil => simp [dictSetStatus]
  | cons hd tl ih =>
    obtain ⟨k₀, c₀⟩ := hd
    by_cases h0 : k₀ = k
    · subst h0
      simp [dictSetStatus, dictLookup, h]
    · simp [dictSetStatus, dictLookup, h0, ih]

theorem dictLookup_setStatus_self (d : List (LC × MCPServerConfig)) (k s) :
    dictLookup (dictSetStatus d k s) k =
      (dictLookup d k).map (fun c => { c with status := s }) := by
  induction d with
  | nil => simp [dictSetStatus, dictLookup]
  | cons hd tl ih =>
    obtain ⟨k₀, c₀⟩ := hd
    by_cases h0 : k₀ = k
    · subst h0
      simp [dictSetStatus, dictLookup]
    · simp [dictSetStatus, dictLookup, h0, ih]

theorem dictMem_setStatus (d : List (LC × MCPServerConfig)) (k s k') :
    dictMem (dictSetStatus d k s) k' = dictMem d k' := by
  induction d with
  | nil => simp [dictSetStatus]
  | cons hd tl ih =>
    obtain ⟨k₀, c₀⟩ := hd
    by_cases h0 : k₀ = k
    · subst h0
      simp [dictSetStatus, dictMem]
    · simp [dictSetStatus, dictMem, h0, ih]

theorem find_server_by_port_setStatus (d : List (LC × MCPServerConfig)) (k s port) :
    find_server_by_port (dictSetStatus d k s) port = find_server_by_port d port := by
  induction d with
  | nil => simp [dictSetStatus]
  | cons hd tl ih =>
    obtain ⟨k₀, c₀⟩ := hd
    by_cases h0 : k₀ = k
    · subst h0
      rw [dictSetStatus, if_pos rfl]
      rw [find_server_by_port, find_server_by_port]
    · rw [dictSetStatus, if_neg h0]
      rw [find_server_by_port, find_server_by_port, ih]

theorem find_server_by_port_set_discovered (d : List (LC × MCPServerConfig))
    (k : LC) (v : MCPServerConfig) (port : Option Nat)
    (hk : discoveredPfx.isPrefixOf k = true) :
    find_server_by_port (dictSet d k v) port = find_server_by_port d port := by
  induction d with
  | nil => simp [dictSet, find_server_by_port, hk]
  | cons hd tl ih =>
    obtain ⟨k₀, c₀⟩ := hd
    by_cases h0 : k₀ = k
    · subst h0
      simp [dictSet, find_server_by_port, hk, ih]
    · simp [dictSet, find_server_by_port, h0, ih]

theorem discoveredName_has_pfx (q : Nat) :
    discoveredPfx.isPrefixOf (discoveredName q) = true := by
  rw [ List.isPrefixOf_iff_prefix, discoveredName]
  exact List.prefix_append _ _

theorem discover_step_find (scanOk : Nat → Bool) (st : ManagerState) (q : Nat)
    (port : Option Nat) :
    find_server_by_port (discover_step scanOk st q).servers port =
      find_server_by_port st.servers port := by
  rw [discover_step]
  by_cases hq : scanOk q = true
  · rw [if_pos hq]
    cases hf : find_server_by_port st.servers (some q) with
    | some ex =>
      cases ex with
      | nil =>
        simp [find_server_by_port_set_discovered _ _ _ _ (discoveredName_has_pfx q)]
      | cons c rest => simp [find_server_by_port_setStatus]
    | none =>
      simp [find_server_by_port_set_discovered _ _ _ _ (discoveredName_has_pfx q)]
  · rw [if_neg hq]

theorem scan_find (scanOk : Nat → Bool) (port : Option Nat) :
    ∀ (ports : List Nat) (st : ManagerState),
      find_server_by_port (ports.foldl (discover_step scanOk) st).servers port =
        find_server_by_port st.servers port := by
  intro ports
  induction ports with
  | nil => intro st; rfl
  | cons q qs ih =>
    intro st
    rw [List.foldl_cons, ih, discover_step_find]

theorem discover_step_preserves_running (scanOk : Nat → Bool) (st : ManagerState)
    (q : Nat) (m : LC) (hm : discoveredPfx.isPrefixOf m = false)
    (h : (dictLookup st.servers m).map MCPServerConfig.status = some statusRunning) :
    (dictLookup (discover_step scanOk st q).servers m).map MCPServerConfig.status =
      some statusRunning := by
  have hne : discoveredName q ≠ m := by
    intro hcontra
    rw [← hcontra] at hm
    rw [discoveredName_has_pfx q] at hm
    simp at hm
  rw [discover_step]
  by_cases hq : scanOk q = true
  · rw [if_pos hq]
    cases hf : find_server_by_port st.servers (some q) with
    | some ex =>
      cases ex with
      | nil =>
        simp only [dictLookup_set_ne _ _ _ _ hne]
        exact h
      | cons c rest =>
        by_cases hex : c :: rest = m
        · subst hex
          simp only [dictLookup_setStatus_self]
          cases hl : dictLookup st.servers (c :: rest) with
          | none => rw [hl] at h; simp at h
          | some cfg => simp
        · simp only [dictLookup_setStatus_ne _ _ _ _ hex]
          exact h
    | none =>
      simp only [dictLookup_set_ne _ _ _ _ hne]
      exact h
  · rw [if_neg hq]
    exact h

theorem scan_preserves_running (scanOk : Nat → Bool) (m : LC)
    (hm : discoveredPfx.isPrefixOf m = false) :
    ∀ (ports : List Nat) (st : ManagerState),
      (dictLookup st.servers m).map MCPServerConfig.status = some statusRunning →
      (dictLookup (ports.foldl (discover_step scanOk) st).servers m).map
        MCPServerConfig.status = some statusRunning := by
  intro ports
  induction ports with
  | nil => intro st h; exact h
  | cons q qs ih =>
    intro st h
    rw [List.foldl_cons]
    exact ih _ (discover_step_preserves_running scanOk st q m hm h)

theorem scan_preserves_discovered (scanOk : Nat → Bool) (p : Nat) :
    ∀ (ports : List Nat) (st : ManagerState),
      (∀ q ∈ ports, discoveredName q = discoveredName p → q = p) →
      dictLookup st.servers (discoveredName p) = some (discoveredConfig p) →
      dictLookup (ports.foldl (discover_step scanOk) st).servers
        (discoveredName p) = some (discoveredConfig p) := by
  intro ports
  induction ports with
  | nil => intro st _ h; exact h
  | cons q qs ih =>
    intro st hinj h
    rw [List.foldl_cons]
    refine ih _ (fun x hx => hinj x (by simp [hx])) ?_
    have hcreate : dictLookup
        (dictSet st.servers (discoveredName q) (discoveredConfig q))
        (discoveredName p) = some (discoveredConfig p) := by
      by_cases hqp : discoveredName q = discoveredName p
      · have hq' : q = p := hinj q (by simp) hqp
        subst hq'
        rw [hqp]
        rw [dictLookup_set_self]
      · simp only [dictLookup_set_ne _ _ _ _ hqp]
        exact h
    rw [discover_step]
    by_cases hq : scanOk q = true
    · rw [if_pos hq]
      cases hf : find_server_by_port st.servers (some q) with
      | some ex =>
        cases ex with
        | nil => exact hcreate
        | cons c rest =>
          have hex : c :: rest ≠ discoveredName p := by
            intro hcontra
            have := find_server_by_port_not_discovered hf
            rw [hcontra, discoveredName_has_pfx p] at this
            simp at this
          simp only [dictLookup_setStatus_ne _ _ _ _ hex]
          exact h
      | none => exact hcreate
    · rw [if_neg hq]
      exact h

theorem scan_mem_discovered (scanOk : Nat → Bool) (p : Nat) :
    ∀ (ports : List Nat) (st : ManagerState),
      (∀ q ∈ ports, discoveredName q = discoveredName p →
        truthyName (find_server_by_port st.servers (some q)) = true) →
      dictMem (ports.foldl (discover_step scanOk) st).servers (discoveredName p) =
        dictMem st.servers (discoveredName p) := by
  intro ports
  induction ports with
  | nil => intro st _; rfl
  | cons q qs ih =>
    intro st hcond
    rw [List.foldl_cons]
    have hstep : dictMem (discover_step scanOk st q).servers (discoveredName p) =
        dictMem st.servers (discoveredName p) := by
      rw [discover_step]
      by_cases hq : scanOk q = true
      · rw [if_pos hq]
        cases hf : find_server_by_port st.servers (some q) with
        | some ex =>
          cases ex with
          | nil =>
            by_cases hqp : discoveredName q = discoveredName p
            · have := hcond q (by simp) hqp
              rw [hf] at this
              simp [truthyName] at this
            · simp only [dictMem_set_ne _ _ _ _ hqp]
          | cons c rest => simp [dictMem_setStatus]
        | none =>
          by_cases hqp : discoveredName q = discoveredName p
          · have := hcond q (by simp) hqp
            rw [hf] at this
            simp [truthyName] at this
          · simp only [dictMem_set_ne _ _ _ _ hqp]
      · rw [if_neg hq]
    rw [ih _ (fun x hx hxp => by
      rw [discover_step_find]
      exact hcond x (by simp [hx]) hxp)]
    exact hstep

set_option maxRecDepth 10000 in
set_option maxHeartbeats 4000000 in
theorem discoveredName_nodup : (portRange.map discoveredName).Nodup := by decide

/-- C5 counterexample: a manually configured provider registered under the
empty-string name claims port 8000 and the probe on 8000 succeeds, yet the
scan leaves that provider's status `"stopped"` and registers a
`discovered_server_8000` duplicate: the source's `if existing_server:` is
Python truthiness, false for the empty found name, so the create branch
runs even though `_find_server_by_port` found an existing provider. -/
theorem claim_C5_counterexample :
    find_server_by_port cexC5EmptyState.servers (some 8000) = some [] ∧
    (dictLookup (discover_running_servers cexC5EmptyState cexC5EmptyScan).servers
      []).map MCPServerConfig.status = some statusStopped ∧
    dictLookup (discover_running_servers cexC5EmptyState cexC5EmptyScan).servers
      (discoveredName 8000) = some (discoveredConfig 8000) ∧
    dictMem cexC5EmptyState.servers (discoveredName 8000) = false := by
  refine ⟨by decide, ?_, ?_, by decide⟩
  · decide
  · decide

/-- C5 (amended): for every port in the scanned range whose probe succeeds:
if a manually configured (non-auto-discovered) provider with a NON-EMPTY
name already claims that port, the scan marks that provider `"running"`
and creates no `discovered_server_<port>` record (membership of that key
is unchanged); if no provider claims the port, or the claiming provider's
name is empty (the `if existing_server:` truthiness test fails), the scan
registers `discovered_server_<port>` with `auto_start = false` and status
`"running"`. -/
theorem claim_C5_amended (st : ManagerState) (scanOk : Nat → Bool) (p : Nat)
    (hp : p ∈ portRange) (hok : scanOk p = true) :
    (∀ c cs, find_server_by_port st.servers (some p) = some (c :: cs) →
      (dictLookup (discover_running_servers st scanOk).servers (c :: cs)).map
        MCPServerConfig.status = some statusRunning ∧
      dictMem (discover_running_servers st scanOk).servers (discoveredName p) =
        dictMem st.servers (discoveredName p)) ∧
    (truthyName (find_server_by_port st.servers (some p)) = false →
      dictLookup (discover_running_servers st scanOk).servers (discoveredName p) =
        some (discoveredConfig p) ∧
      (discoveredConfig p).auto_start = false ∧
      (discoveredConfig p).status = statusRunning) := by
  obtain ⟨l1, l2, hsplit⟩ := List.append_of_mem hp
  have hinj : ∀ a ∈ portRange, ∀ b ∈ portRange,
      discoveredName a = discoveredName b → a = b :=
    fun a ha b hb => List.inj_on_of_nodup_map discoveredName_nodup ha hb
  constructor
  · intro c cs hfind
    constructor
    · rw [discover_running_servers, hsplit, List.foldl_append, List.foldl_cons]
      apply scan_preserves_running scanOk (c :: cs)
        (find_server_by_port_not_discovered hfind)
      have hfind1 : find_server_by_port
          (l1.foldl (discover_step scanOk) st).servers (some p) = some (c :: cs) := by
        rw [scan_find]
        exact hfind
      rw [discover_step, if_pos hok, hfind1]
      simp only [dictLookup_setStatus_self]
      obtain ⟨c', hc'⟩ := find_server_by_port_lookup hfind1
      rw [hc']
      simp
    · rw [discover_running_servers]
      rw [scan_mem_discovered scanOk p portRange st (by
        intro q hq hqp
        have hq' : q = p := hinj q hq p hp hqp
        subst hq'
        rw [hfind]
        rfl)]
  · intro hfalse
    refine ⟨?_, rfl, rfl⟩
    rw [discover_running_servers, hsplit, List.foldl_append, List.foldl_cons]
    refine scan_preserves_discovered scanOk p l2 _ ?_ ?_
    · intro q hq hqp
      exact hinj q (by rw [hsplit]; simp [hq]) p hp hqp
    · have hfind1 : find_server_by_port
          (l1.foldl (discover_step scanOk) st).servers (some p) =
            find_server_by_port st.servers (some p) :=
        scan_find scanOk (some p) l1 st
      rw [discover_step, if_pos hok, hfind1]
      cases hf : find_server_by_port st.servers (some p) with
      | some ex =>
        cases ex with
        | nil => exact dictLookup_set_self _ _ _
        | cons c rest =>
          rw [hf] at hfalse
          simp [truthyName] at hfalse
      | none => exact dictLookup_set_self _ _ _

/-- Witness for the amended C5 at port 8000. -/
theorem claim_C5_amended_witness :
    8000 ∈ portRange ∧ cexC5Scan 8000 = true ∧
      ((∀ c cs, find_server_by_port cexC5State.servers (some 8000) = some (c :: cs) →
        (dictLookup (discover_running_servers cexC5State cexC5Scan).servers
          (c :: cs)).map MCPServerConfig.status = some statusRunning ∧
        dictMem (discover_running_servers cexC5State cexC5Scan).servers
          (discoveredName 8000) =
          dictMem cexC5State.servers (discoveredName 8000)) ∧
      (truthyName (find_server_by_port cexC5State.servers (some 8000)) = false →
        dictLookup (discover_running_servers cexC5State cexC5Scan).servers
          (discoveredName 8000) = some (discoveredConfig 8000) ∧
        (discoveredConfig 8000).auto_start = false ∧
        (discoveredConfig 8000).status = statusRunning)) :=
  ⟨by decide, by decide,
    claim_C5_amended cexC5State cexC5Scan 8000 (by decide) (by decide)⟩

theorem parseTransport_value (t : MCPTransportType) :
    parseTransport (transportValue t) = some t := by
  cases t <;> decide

theorem loadedConfig_saveRec (c : MCPServerConfig) (n : LC) (hn : c.name = n) :
    loadedConfig n (saveRec c) c.transport_type =
      { c with status := statusUnknown } := by
  cases c
  simp_all [loadedConfig, saveRec]

theorem find_server_by_port_eq_none {d : List (LC × MCPServerConfig)}
    {port : Option Nat}
    (h : ∀ e ∈ d, discoveredPfx.isPrefixOf e.1 = false → e.2.port ≠ port) :
    find_server_by_port d port = none := by
  induction d with
  | nil => rfl
  | cons hd tl ih =>
    obtain ⟨m, cm⟩ := hd
    rw [find_server_by_port, if_neg ?hcond]
    · exact ih (fun e he hm => h e (by simp [he]) hm)
    · intro hcond
      cases hb : discoveredPfx.isPrefixOf m with
      | true => exact hcond.2 hb
      | false => exact h (m, cm) (by simp) hb hcond.1

theorem loadEntries_preserves (n : LC) (v : MCPServerConfig) :
    ∀ (entries : List (LC × SavedRec)) (acc : List (LC × MCPServerConfig)),
      (∀ e ∈ entries, e.1 ≠ n) →
      dictLookup acc n = some v →
      dictLookup (loadEntries entries acc).1 n = some v := by
  intro entries
  induction entries with
  | nil => intro acc _ h; exact h
  | cons e rest ih =>
    intro acc hne h
    obtain ⟨m, r⟩ := e
    rw [loadEntries]
    by_cases hskip : (discoveredPfx.isPrefixOf m &&
        truthyName (find_server_by_port acc r.port)) = true
    · rw [if_pos hskip]
      exact ih acc (fun e' he' => hne e' (by simp [he'])) h
    · rw [if_neg hskip]
      cases hp : parseTransport r.transport_type with
      | none => exact h
      | some t =>
        refine ih _ (fun e' he' => hne e' (by simp [he'])) ?_
        rw [dictLookup_set_ne _ _ _ _ (hne (m, r) (by simp))]
        exact h

theorem loadEntries_save_walk (n : LC) (c : MCPServerConfig) :
    ∀ (reg1 reg2 : List (LC × MCPServerConfig))
      (acc : List (LC × MCPServerConfig)),
      (∀ e ∈ reg1 ++ (n, c) :: reg2, e.2.name = e.1) →
      n ∉ reg2.map Prod.fst →
      (discoveredPfx.isPrefixOf n = false ∨
        ((∀ e ∈ reg1, discoveredPfx.isPrefixOf e.1 = false → e.2.port ≠ c.port) ∧
         (∀ e ∈ acc, discoveredPfx.isPrefixOf e.1 = false → e.2.port ≠ c.port))) →
      dictLookup (loadEntries (save_config (reg1 ++ (n, c) :: reg2)) acc).1 n =
        some { c with status := statusUnknown } := by
  intro reg1
  induction reg1 with
  | nil =>
    intro reg2 acc hname hnotin hkeep
    rw [List.nil_append] at hname ⊢
    rw [save_config, List.map_cons, loadEntries]
    dsimp only
    rw [if_neg ?hcond]
    case hcond =>
      intro hcond
      rw [Bool.and_eq_true] at hcond
      have hport : (saveRec c).port = c.port := rfl
      rw [hport] at hcond
      rcases hkeep with hk | hk
      · rw [hk] at hcond
        exact Bool.false_ne_true hcond.1
      · rw [find_server_by_port_eq_none hk.2] at hcond
        exact Bool.false_ne_true hcond.2
    have hsr : (saveRec c).transport_type = transportValue c.transport_type := rfl
    rw [hsr, parseTransport_value]
    dsimp only
    have hval : loadedConfig n (saveRec c) c.transport_type =
        { c with status := statusUnknown } :=
      loadedConfig_saveRec c n (hname (n, c) (by simp))
    rw [hval]
    refine loadEntries_preserves n _ _ _ ?_ (dictLookup_set_self _ _ _)
    intro e he
    rw [List.mem_map] at he
    obtain ⟨e', he', hee⟩ := he
    subst hee
    intro hcontra
    exact hnotin (hcontra ▸ List.mem_map_of_mem Prod.fst he')
  | cons f reg1' ih =>
    intro reg2 acc hname hnotin hkeep
    obtain ⟨m, cm⟩ := f
    rw [List.cons_append] at hname ⊢
    rw [save_config, List.map_cons, loadEntries]
    dsimp only
    by_cases hskip : (discoveredPfx.isPrefixOf m &&
        truthyName (find_server_by_port acc (saveRec cm).port)) = true
    · rw [if_pos hskip]
      refine ih reg2 acc (fun e he => hname e (by simp [he])) hnotin ?_
      rcases hkeep with hk | hk
      · exact Or.inl hk
      · exact Or.inr ⟨fun e he hm => hk.1 e (by simp [he]) hm, hk.2⟩
    · rw [if_neg hskip]
      have hsr : (saveRec cm).transport_type = transportValue cm.transport_type := rfl
      rw [hsr, parseTransport_value]
      dsimp only
      have hval : loadedConfig m (saveRec cm) cm.transport_type =
          { cm with status := statusUnknown } :=
        loadedConfig_saveRec cm m (hname (m, cm) (by simp))
      rw [hval]
      refine ih reg2 _ (fun e he => hname e (by simp [he])) hnotin ?_
      rcases hkeep with hk | hk
      · exact Or.inl hk
      · refine Or.inr ⟨fun e he hm => hk.1 e (by simp [he]) hm, ?_⟩
        intro e he hm
        rcases mem_dictSet he with h' | h'
        · exact hk.2 e h' hm
        · subst h'
          exact hk.1 (m, cm) (by simp) hm

/-- C2 as written is false: after save-then-load, the auto-discovered record
whose port is claimed by an earlier manual record is gone entirely, so its
fields are not reproduced. -/
theorem claim_C2_counterexample :
    ("discovered_server_8001".data, cexC2Disc) ∈ cexC2Reg ∧
      dictLookup (load_config [] (ConfigDoc.parsed (save_config cexC2Reg)))
        "discovered_server_8001".data = none := by
  decide

/-- C2 (amended): save-then-load reproduces every field of every record
except `status`, which is reset to `"unknown"` — for every record that is
not an auto-discovered one whose port is already claimed by an earlier
manually configured record (such records are dropped by `load_config`). -/
theorem claim_C2_amended (cwd : LC) (reg1 reg2 : List (LC × MCPServerConfig))
    (n : LC) (c : MCPServerConfig)
    (hname : ∀ e ∈ reg1 ++ (n, c) :: reg2, e.2.name = e.1)
    (hnd : ((reg1 ++ (n, c) :: reg2).map Prod.fst).Nodup)
    (hkeep : discoveredPfx.isPrefixOf n = false ∨
      (∀ e ∈ reg1, discoveredPfx.isPrefixOf e.1 = false → e.2.port ≠ c.port)) :
    dictLookup
      (load_config cwd (ConfigDoc.parsed (save_config (reg1 ++ (n, c) :: reg2)))) n =
      some { c with status := statusUnknown } := by
  have hnotin : n ∉ reg2.map Prod.fst := by
    rw [List.map_append, List.map_cons] at hnd
    have h2 := hnd.sublist (List.sublist_append_right _ _)
    exact (List.nodup_cons.mp h2).1
  have hwalk := loadEntries_save_walk n c reg1 reg2 [] hname hnotin
    (by
      rcases hkeep with hk | hk
      · exact Or.inl hk
      · exact Or.inr ⟨hk, by intro e he; simp at he⟩)
  rw [load_config]
  cases hle : loadEntries (save_config (reg1 ++ (n, c) :: reg2)) [] with
  | mk acc failed =>
    cases failed with
    | false =>
      rw [hle] at hwalk
      exact hwalk
    | true =>
      exfalso
      have hok : ∀ (reg : List (LC × MCPServerConfig))
          (acc0 : List (LC × MCPServerConfig)),
          (loadEntries (save_config reg) acc0).2 = false := by
        intro reg
        induction reg with
        | nil => intro acc0; rfl
        | cons f rest ih =>
          intro acc0
          obtain ⟨m, cm⟩ := f
          rw [save_config, List.map_cons, loadEntries]
          dsimp only
          by_cases hskip : (discoveredPfx.isPrefixOf m &&
              truthyName (find_server_by_port acc0 (saveRec cm).port)) = true
          · rw [if_pos hskip]
            exact ih acc0
          · rw [if_neg hskip]
            have hsr : (saveRec cm).transport_type =
                transportValue cm.transport_type := rfl
            rw [hsr, parseTransport_value]
            exact ih _
      have := hok (reg1 ++ (n, c) :: reg2) []
      rw [hle] at this
      simp at this

/-- Witness for the amended C2 on the counterexample registry: the manual
record survives the round trip with only its status reset. -/
theorem claim_C2_amended_witness :
    (∀ e ∈ cexC2Reg, e.2.name = e.1) ∧ (cexC2Reg.map Prod.fst).Nodup ∧
      dictLookup (load_config [] (ConfigDoc.parsed (save_config cexC2Reg)))
        "b".data = some { cexC2Manual with status := statusUnknown } :=
  ⟨by decide, by decide,
    claim_C2_amended [] [] [("discovered_server_8001".data, cexC2Disc)]
      "b".data cexC2Manual (by decide) (by decide) (Or.inl (by decide))⟩

/-- C8 as written is false: a single record with an invalid
`transport_type` inside a well-formed document makes `load_config` run
`_create_default_config` — the record is dropped and the built-in default
provider is regenerated. -/
theorem claim_C8_counterexample :
    load_config [] (ConfigDoc.parsed [("x".data, cexC8Rec)]) =
      [("weather_server".data, defaultWeatherServer [])] ∧
      dictLookup (load_config [] (ConfigDoc.parsed [("x".data, cexC8Rec)]))
        "x".data = none := by
  decide

theorem loadEntries_append :
    ∀ (a b : List (LC × SavedRec)) (acc : List (LC × MCPServerConfig)),
      loadEntries (a ++ b) acc =
        (match loadEntries a acc with
         | (acc', false) => loadEntries b acc'
         | (acc', true) => (acc', true)) := by
  intro a
  induction a with
  | nil => intro b acc; rfl
  | cons e rest ih =>
    intro b acc
    obtain ⟨m, r⟩ := e
    rw [List.cons_append, loadEntries, loadEntries]
    by_cases hskip : (discoveredPfx.isPrefixOf m &&
        truthyName (find_server_by_port acc r.port)) = true
    · rw [if_pos hskip, if_pos hskip]
      exact ih b acc
    · rw [if_neg hskip, if_neg hskip]
      cases hp : parseTransport r.transport_type with
      | none => rfl
      | some t => exact ih b _

theorem loadEntries_all_parse :
    ∀ (entries : List (LC × SavedRec)) (acc : List (LC × MCPServerConfig)),
      (∀ e ∈ entries, (parseTransport e.2.transport_type).isSome = true) →
      (loadEntries entries acc).2 = false := by
  intro entries
  induction entries with
  | nil => intro acc _; rfl
  | cons e rest ih =>
    intro acc hall
    obtain ⟨m, r⟩ := e
    rw [loadEntries]
    by_cases hskip : (discoveredPfx.isPrefixOf m &&
        truthyName (find_server_by_port acc r.port)) = true
    · rw [if_pos hskip]
      exact ih acc (fun e' he' => hall e' (by simp [he']))
    · rw [if_neg hskip]
      cases hp : parseTransport r.transport_type with
      | none =>
        have := hall (m, r) (by simp)
        rw [hp] at this
        simp at this
      | some t => exact ih _ (fun e' he' => hall e' (by simp [he']))

/-- C8 (amended): `load_config` builds the default configuration on a
missing document and on an unparseable document; additionally, any
per-entry parse failure (for example an invalid `transport_type` value)
aborts the load at that entry and also triggers `_create_default_config`,
which keeps the entries loaded before the failure, drops the failing entry
and everything after it, and adds the built-in default provider. -/
theorem claim_C8_amended (cwd : LC) (good : List (LC × SavedRec))
    (bad : LC × SavedRec) (rest : List (LC × SavedRec))
    (hgood : ∀ e ∈ good, (parseTransport e.2.transport_type).isSome = true)
    (hbadname : discoveredPfx.isPrefixOf bad.1 = false)
    (hbad : parseTransport bad.2.transport_type = none) :
    load_config cwd ConfigDoc.missing = create_default_config cwd [] ∧
    load_config cwd ConfigDoc.unparseable = create_default_config cwd [] ∧
    load_config cwd (ConfigDoc.parsed (good ++ bad :: rest)) =
      create_default_config cwd (loadEntries good []).1 := by
  refine ⟨rfl, rfl, ?_⟩
  obtain ⟨bn, br⟩ := bad
  rw [load_config, loadEntries_append]
  cases hle : loadEntries good [] with
  | mk accG fG =>
    have hf : fG = false := by
      have := loadEntries_all_parse good [] hgood
      rw [hle] at this
      exact this
    subst hf
    dsimp only
    rw [loadEntries]
    rw [if_neg (by
      intro hcond
      rw [Bool.and_eq_true] at hcond
      rw [hbadname] at hcond
      exact Bool.false_ne_true hcond.1)]
    rw [hbad]

theorem claim_C8_amended_witness :
    (parseTransport cexC8Good.transport_type).isSome = true ∧
      parseTransport cexC8Rec.transport_type = none ∧
      (load_config [] ConfigDoc.missing = create_default_config [] [] ∧
       load_config [] ConfigDoc.unparseable = create_default_config [] [] ∧
       load_config [] (ConfigDoc.parsed
          ([("g".data, cexC8Good)] ++ ("x".data, cexC8Rec) :: [])) =
        create_default_config []
          (loadEntries [("g".data, cexC8Good)] []).1) :=
  ⟨by decide, by decide,
    claim_C8_amended [] [("g".data, cexC8Good)] ("x".data, cexC8Rec) []
      (by decide) (by decide) (by decide)⟩

theorem addProviderTools_skip (n : LC) :
    ∀ (ts : List AdvertisedTool) (d : List (LC × MCPToolInfo)) (s : LC),
      (∀ t ∈ ts, t.name ≠ n) →
      dictLookup (addProviderTools d s ts) n = dictLookup d n := by
  intro ts
  induction ts with
  | nil => intro d s _; rfl
  | cons t ts' ih =>
    intro d s hne
    rw [addProviderTools, List.foldl_cons]
    have := ih (dictSet d t.name (toToolInfo s t)) s
      (fun t' ht' => hne t' (by simp [ht']))
    rw [addProviderTools] at this
    rw [this, dictLookup_set_ne _ _ _ _ (hne t (by simp))]

theorem addProviderTools_hit (n : LC) (tB : AdvertisedTool) :
    ∀ (ts : List AdvertisedTool) (d : List (LC × MCPToolInfo)) (s : LC),
      ts.filter (fun t => t.name == n) = [tB] →
      dictLookup (addProviderTools d s ts) n = some (toToolInfo s tB) := by
  intro ts
  induction ts with
  | nil => intro d s h; simp at h
  | cons t ts' ih =>
    intro d s hfil
    rw [addProviderTools, List.foldl_cons]
    rw [List.filter_cons] at hfil
    by_cases hname : (t.name == n) = true
    · rw [if_pos hname] at hfil
      have ht : t = tB := (List.cons.injEq _ _ _ _ ▸ hfil).1
      have hrest : ts'.filter (fun t => t.name == n) = [] :=
        (List.cons.injEq _ _ _ _ ▸ hfil).2
      have hskip : ∀ t' ∈ ts', t'.name ≠ n := by
        intro t' ht' hcontra
        have : t' ∈ ts'.filter (fun t => t.name == n) :=
          List.mem_filter.mpr ⟨ht', by simp [hcontra]⟩
        rw [hrest] at this
        simp at this
      have := addProviderTools_skip n ts'
        (dictSet d t.name (toToolInfo s t)) s hskip
      rw [addProviderTools] at this
      rw [this]
      have hn : t.name = n := by simpa using hname
      rw [← hn, ← ht]
      exact dictLookup_set_self d t.name (toToolInfo s t)
    · rw [if_neg hname] at hfil
      exact ih _ s hfil

/-- C9: when a later provider advertises a procedure name that an earlier
provider also advertises, the built directory maps the name to the later
provider's descriptor (last write wins), never the earlier one and never
an ambiguous entry. -/
theorem claim_C9 (ps : List (LC × List AdvertisedTool)) (sA sB n : LC)
    (tsA tsB : List AdvertisedTool) (tB : AdvertisedTool)
    (hA : (sA, tsA) ∈ ps) (hAn : ∃ t ∈ tsA, t.name = n)
    (hBn : tsB.filter (fun t => t.name == n) = [tB]) :
    dictLookup (buildAllTools (ps ++ [(sB, tsB)])) n = some (toToolInfo sB tB) := by
  rw [buildAllTools, List.foldl_append, List.foldl_cons, List.foldl_nil]
  exact addProviderTools_hit n tB tsB _ sB hBn

theorem claim_C9_witness :
    ("srvA".data, [cexC9ToolA]) ∈ [("srvA".data, [cexC9ToolA])] ∧
      dictLookup (buildAllTools
        ([("srvA".data, [cexC9ToolA])] ++ [("srvB".data, [cexC9ToolB])]))
        "get_info".data = some (toToolInfo "srvB".data cexC9ToolB) :=
  ⟨by decide,
    claim_C9 [("srvA".data, [cexC9ToolA])] "srvA".data "srvB".data
      "get_info".data [cexC9ToolA] [cexC9ToolB] cexC9ToolB
      (by decide) ⟨cexC9ToolA, by decide, by decide⟩ (by decide)⟩

/-- C10: `call_tool` is total as seen by its caller: for every input it
returns a string, and the string is the unknown-tool error text, the
not-connected error text, the transport result, or the converted
raised-error text — a raising transport call never propagates. -/
theorem claim_C10 (all_tools : List (LC × MCPToolInfo))
    (servers : List (LC × MCPServerInfo))
    (transportCall : MCPServerInfo → LC → List (LC × LC) → Except LC LC)
    (tool_name : LC) (arguments : List (LC × LC)) :
    (dictLookup all_tools tool_name = none ∧
      call_tool all_tools servers transportCall tool_name arguments =
        errUnknownTool tool_name) ∨
    (∃ info, dictLookup all_tools tool_name = some info ∧
      dictLookup servers info.server_name = none ∧
      call_tool all_tools servers transportCall tool_name arguments =
        errServerNotConnected info.server_name) ∨
    (∃ info srv r, dictLookup all_tools tool_name = some info ∧
      dictLookup servers info.server_name = some srv ∧
      transportCall srv tool_name arguments = Except.ok r ∧
      call_tool all_tools servers transportCall tool_name arguments = r) ∨
    (∃ info srv e, dictLookup all_tools tool_name = some info ∧
      dictLookup servers info.server_name = some srv ∧
      transportCall srv tool_name arguments = Except.error e ∧
      call_tool all_tools servers transportCall tool_name arguments =
        errCallFailed e) := by
  cases h1 : dictLookup all_tools tool_name with
  | none =>
    left
    exact ⟨rfl, by simp [call_tool, h1]⟩
  | some info =>
    cases h2 : dictLookup servers info.server_name with
    | none =>
      right; left
      exact ⟨info, rfl, h2, by simp [call_tool, h1, h2]⟩
    | some srv =>
      cases h3 : transportCall srv tool_name arguments with
      | ok r =>
        right; right; left
        exact ⟨info, srv, r, rfl, h2, h3, by simp [call_tool, h1, h2, h3]⟩
      | error e =>
        right; right; right
        exact ⟨info, srv, e, rfl, h2, h3, by simp [call_tool, h1, h2, h3]⟩
